import Mathlib

/-!
Verification of the gl-chat backend against its design specification.

The development shallowly embeds the parts of the Python source that the
specification's testable properties talk about:

* a JSON value model (`JVal`) together with an executable parser
  (`json_loads`) and serializer (`json_dumps`) standing for Python's
  `json.loads` / `json.dumps`;
* the dashboard response normalizer `_parse_llm_response`
  (app/services/handlers/dashboard_handler.py);
* the dashboard context formatter `_prepare_context`;
* the settings and extension handlers' result shaping;
* the router `process_unified_query` (app/services/chat_service.py);
* the unified chat endpoint's validation (app/routes/chat.py);
* the conversation store operations of `ChatMessage`
  (app/models/chat_message.py) over an explicit list-of-documents state.

Modelling conventions: Python dicts decoded from JSON are association
lists with distinct keys in insertion order; Python exceptions that the
source catches are `Option.none`; machine-independent data (strings,
integers, timestamps) are `String`, `Int` and `Nat`.  JSON numbers are
modelled as integers (no claim depends on fractional values), and the
parser accepts raw control characters inside string literals (the lenient
behaviour; no claim depends on the strict mode rejection).
-/

namespace GLChat

set_option maxRecDepth 200000

/-- A JSON value as produced by `json.loads`: objects are association lists
with distinct keys in insertion order, mirroring a Python `dict`. -/
inductive JVal where
  | jnull : JVal
  | jbool : Bool → JVal
  | jnum : Int → JVal
  | jstr : String → JVal
  | jarr : List JVal → JVal
  | jobj : List (String × JVal) → JVal

/-- Python `d[k]` / `d.get(k)` on a dict with distinct keys: the first
binding of `k`, if any. -/
def lookupKey : List (String × JVal) → String → Option JVal
  | [], _ => none
  | (k, v) :: rest, key => if k = key then some v else lookupKey rest key

/-- Python `d[k] = v`: replace the binding in place if the key is present
(keeping its position, as CPython dicts do), else append it. -/
def setKey : List (String × JVal) → String → JVal → List (String × JVal)
  | [], k, v => [(k, v)]
  | (k0, v0) :: rest, k, v =>
    if k0 = k then (k0, v) :: rest else (k0, v0) :: setKey rest k v

/-- Python truthiness of a JSON-decoded value: `None`, `False`, `0`, `""`,
`[]` and an empty dict are falsy, everything else is truthy. -/
def truthy : JVal → Bool
  | JVal.jnull => false
  | JVal.jbool b => b
  | JVal.jnum n => n != 0
  | JVal.jstr s => s != ""
  | JVal.jarr l => !l.isEmpty
  | JVal.jobj l => !l.isEmpty

/-- Python `len` on a JSON-decoded value; `none` models the `TypeError`
raised on values without a length. -/
def pyLen : JVal → Option Nat
  | JVal.jstr s => some s.length
  | JVal.jarr l => some l.length
  | JVal.jobj l => some l.length
  | _ => none

/-- Key occurs among the bindings. -/
def keyMem (k : String) : List (String × JVal) → Bool
  | [] => false
  | (k0, _) :: rest => k0 = k || keyMem k rest

/-- The binding keys are pairwise distinct. -/
def nodupKeys : List (String × JVal) → Bool
  | [] => true
  | (k, _) :: rest => !keyMem k rest && nodupKeys rest

mutual

/-- Well-formed JSON value: every object, recursively, has distinct keys.
Values decoded from JSON text always have this shape (a Python dict cannot
hold a key twice). -/
def wfJ : JVal → Bool
  | JVal.jarr l => wfArr l
  | JVal.jobj l => nodupKeys l && wfObj l
  | _ => true

/-- All array elements are well-formed. -/
def wfArr : List JVal → Bool
  | [] => true
  | v :: vs => wfJ v && wfArr vs

/-- All object field values are well-formed. -/
def wfObj : List (String × JVal) → Bool
  | [] => true
  | (_, v) :: vs => wfJ v && wfObj vs

end

/-! ## Serialization (`json.dumps`, compact separators) -/

/-- Decimal digits of `n`, least significant first; the fuel argument is
only there to make the recursion structural and is immaterial once it
exceeds `n`. -/
def natToRevDigits : Nat → Nat → List Nat
  | 0, _ => []
  | fuel + 1, n => if n = 0 then [] else n % 10 :: natToRevDigits fuel (n / 10)

/-- Decimal rendering of a natural number. -/
def printNat (n : Nat) : List Char :=
  if n = 0 then ['0'] else ((natToRevDigits (n + 1) n).reverse.map Nat.digitChar)

/-- Decimal rendering of an integer. -/
def printInt (n : Int) : List Char :=
  if n < 0 then '-' :: printNat n.natAbs else printNat n.natAbs

/-- JSON string escaping for one character: `"` and `\` are escaped, every
other character is emitted literally. -/
def escChar (c : Char) : List Char :=
  if c = '"' then ['\\', '"'] else if c = '\\' then ['\\', '\\'] else [c]

/-- JSON string escaping of a character sequence. -/
def escStr : List Char → List Char
  | [] => []
  | c :: rest => escChar c ++ escStr rest

mutual

/-- Serialization of a JSON value, standing for `json.dumps` with compact
separators: objects print as `\x7b"k":v,...\x7d`, arrays as `[v,...]`. -/
def printV : JVal → List Char
  | JVal.jnull => ['n', 'u', 'l', 'l']
  | JVal.jbool true => ['t', 'r', 'u', 'e']
  | JVal.jbool false => ['f', 'a', 'l', 's', 'e']
  | JVal.jnum n => printInt n
  | JVal.jstr s => '"' :: escStr s.data ++ ['"']
  | JVal.jarr l => '[' :: printItems l ++ [']']
  | JVal.jobj l => '{' :: printMembers l ++ ['}']

/-- Comma-separated serialization of array elements. -/
def printItems : List JVal → List Char
  | [] => []
  | [v] => printV v
  | v :: vs => printV v ++ ',' :: printItems vs

/-- Comma-separated serialization of object members. -/
def printMembers : List (String × JVal) → List Char
  | [] => []
  | [(k, v)] => '"' :: escStr k.data ++ '"' :: ':' :: printV v
  | (k, v) :: vs => ('"' :: escStr k.data ++ '"' :: ':' :: printV v) ++ ',' :: printMembers vs

end

/-- String-valued `json.dumps`. -/
def json_dumps (v : JVal) : String := String.mk (printV v)

/-! ## Parsing (`json.loads`) -/

/-- JSON whitespace. -/
def isJsonWs (c : Char) : Bool :=
  c = ' ' || c = '\t' || c = '\n' || c = '\r'

/-- Skip leading JSON whitespace. -/
def skipWs (l : List Char) : List Char := l.dropWhile isJsonWs

/-- Value of a hexadecimal digit. -/
def hexDigitVal (c : Char) : Option Nat :=
  if c.isDigit then some (c.toNat - 48)
  else if 'a' ≤ c && c ≤ 'f' then some (c.toNat - 87)
  else if 'A' ≤ c && c ≤ 'F' then some (c.toNat - 55)
  else none

/-- Decoding of a single-character escape sequence. -/
def escDecode (c : Char) : Option Char :=
  if c = '"' then some '"'
  else if c = '\\' then some '\\'
  else if c = '/' then some '/'
  else if c = 'b' then some (Char.ofNat 8)
  else if c = 'f' then some (Char.ofNat 12)
  else if c = 'n' then some '\n'
  else if c = 'r' then some '\r'
  else if c = 't' then some '\t'
  else none

/-- Body of a JSON string literal, after the opening quote: returns the
decoded characters and the input following the closing quote. -/
def parseStringBody : List Char → Option (List Char × List Char)
  | [] => none
  | c :: rest =>
    if c = '"' then some ([], rest)
    else if c = '\\' then
      match rest with
      | [] => none
      | e :: rest2 =>
        if e = 'u' then
          match rest2 with
          | h1 :: h2 :: h3 :: h4 :: rest3 =>
            match hexDigitVal h1, hexDigitVal h2, hexDigitVal h3, hexDigitVal h4 with
            | some d1, some d2, some d3, some d4 =>
              match parseStringBody rest3 with
              | some (cs, r) =>
                some (Char.ofNat (((d1 * 16 + d2) * 16 + d3) * 16 + d4) :: cs, r)
              | none => none
            | _, _, _, _ => none
          | _ => none
        else
          match escDecode e, parseStringBody rest2 with
          | some d, some (cs, r) => some (d :: cs, r)
          | _, _ => none
    else
      match parseStringBody rest with
      | some (cs, r) => some (c :: cs, r)
      | none => none

/-- Numeric value of a decimal digit character. -/
def digitVal (c : Char) : Nat := c.toNat - '0'.toNat

/-- Split a leading run of decimal digits off the input. -/
def takeDigits : List Char → List Nat × List Char
  | [] => ([], [])
  | c :: rest =>
    if c.isDigit then
      let (ds, r) := takeDigits rest
      (digitVal c :: ds, r)
    else ([], c :: rest)

/-- Value of a big-endian digit list. -/
def digitsToNat (ds : List Nat) : Nat := ds.foldl (fun a d => a * 10 + d) 0

mutual

/-- Recursive-descent JSON value parser; the fuel bounds the number of
recursive calls and is immaterial once large enough (the top-level wrapper
supplies `2 * length + 2`, which suffices for every parse). -/
def parseV : Nat → List Char → Option (JVal × List Char)
  | 0, _ => none
  | fuel + 1, l =>
    match skipWs l with
    | [] => none
    | c :: rest =>
      if c = '{' then
        match skipWs rest with
        | '}' :: r => some (JVal.jobj [], r)
        | r1 => parseMembers fuel r1 []
      else if c = '[' then
        match skipWs rest with
        | ']' :: r => some (JVal.jarr [], r)
        | r1 => parseItems fuel r1 []
      else if c = '"' then
        match parseStringBody rest with
        | some (cs, r) => some (JVal.jstr (String.mk cs), r)
        | none => none
      else if c = 't' then
        match rest with
        | 'r' :: 'u' :: 'e' :: r => some (JVal.jbool true, r)
        | _ => none
      else if c = 'f' then
        match rest with
        | 'a' :: 'l' :: 's' :: 'e' :: r => some (JVal.jbool false, r)
        | _ => none
      else if c = 'n' then
        match rest with
        | 'u' :: 'l' :: 'l' :: r => some (JVal.jnull, r)
        | _ => none
      else if c = '-' then
        match takeDigits rest with
        | ([], _) => none
        | (ds, r) => some (JVal.jnum (-(digitsToNat ds : Int)), r)
      else if c.isDigit then
        match takeDigits (c :: rest) with
        | (ds, r) => some (JVal.jnum (digitsToNat ds : Int), r)
      else none

/-- Elements of a non-empty array, positioned at the first element. -/
def parseItems : Nat → List Char → List JVal → Option (JVal × List Char)
  | 0, _, _ => none
  | fuel + 1, l, acc =>
    match parseV fuel l with
    | none => none
    | some (v, r) =>
      match skipWs r with
      | ',' :: r2 => parseItems fuel r2 (acc ++ [v])
      | ']' :: r2 => some (JVal.jarr (acc ++ [v]), r2)
      | _ => none

/-- Members of a non-empty object, positioned at the opening quote of the
next key; bindings accumulate exactly as CPython fills a dict, so a
duplicate key overwrites in place. -/
def parseMembers : Nat → List Char → List (String × JVal) → Option (JVal × List Char)
  | 0, _, _ => none
  | fuel + 1, l, acc =>
    match l with
    | '"' :: r =>
      match parseStringBody r with
      | some (kcs, r2) =>
        match skipWs r2 with
        | ':' :: r3 =>
          match parseV fuel r3 with
          | some (v, r4) =>
            match skipWs r4 with
            | ',' :: r5 => parseMembers fuel (skipWs r5) (setKey acc (String.mk kcs) v)
            | '}' :: r5 => some (JVal.jobj (setKey acc (String.mk kcs) v), r5)
            | _ => none
          | none => none
        | _ => none
      | none => none
    | _ => none

end

/-- Parse a full JSON document from a character sequence: one value with
nothing but whitespace after it, as `json.loads` requires. -/
def json_loads_chars (l : List Char) : Option JVal :=
  match parseV (2 * l.length + 2) l with
  | some (v, r) => if skipWs r = [] then some v else none
  | none => none

/-- Python `json.loads`; `none` models `json.JSONDecodeError`. -/
def json_loads (s : String) : Option JVal := json_loads_chars s.data

/-! ## The dashboard response normalizer (`_parse_llm_response`) -/

/-- Whitespace stripped by Python's `str.strip()`. -/
def isPyWs (c : Char) : Bool :=
  c = ' ' || c = '\t' || c = '\n' || c = '\r' || c = Char.ofNat 11 || c = Char.ofNat 12

/-- Python `str.strip()`: drop whitespace from both ends. -/
def pyStrip (l : List Char) : List Char :=
  ((l.dropWhile isPyWs).reverse.dropWhile isPyWs).reverse

/-- Python `str.startswith`. -/
def startsWithChars : List Char → List Char → Bool
  | [], _ => true
  | _ :: _, [] => false
  | p :: ps, c :: cs => p = c && startsWithChars ps cs

/-- Python `str.endswith`. -/
def endsWithChars (p l : List Char) : Bool := startsWithChars p.reverse l.reverse

/-- Lines 320-324 of dashboard_handler.py: strip the reply, drop a leading
"three backticks + json" fence marker (7 characters) and a trailing
three-backtick fence. -/
def cleanReply (l : List Char) : List Char :=
  let t0 := pyStrip l
  let t1 := if startsWithChars "```json".data t0 then t0.drop 7 else t0
  if endsWithChars "```".data t1 then t1.take (t1.length - 3) else t1

/-- Line 379's fallback text, used when the payload has no
`response_message` key. -/
def defaultResponseMessage : String := "I've updated the view according to your request."

/-- Lines 388-392: the result on a JSON decode failure. -/
def parseErrorFallback : List (String × JVal) :=
  [("response_message", JVal.jstr "I encountered an error processing the response. Please try again.")]

/-- Lines 393-396: the result when normalization raises. -/
def unexpectedErrorFallback : List (String × JVal) :=
  [("response_message", JVal.jstr "I encountered an unexpected error. Please try again.")]

/-- The shared shape of lines 340-345 and 363-372, 382-383: a field is
copied (verbatim, under its own key) exactly when its value is truthy. -/
def truthyField (d : List (String × JVal)) (k : String) : List (String × JVal) :=
  match lookupKey d k with
  | some v => if truthy v then [(k, v)] else []
  | none => []

/-- Lines 346-347: `timeRange` is copied when present, truthy, and with
some truthy value; `any(filters["timeRange"].values())` raises on a truthy
non-dict, modelled by `none`. -/
def timeRangeField (fd : List (String × JVal)) : Option (List (String × JVal)) :=
  match lookupKey fd "timeRange" with
  | some tv =>
    if truthy tv then
      match tv with
      | JVal.jobj td => some (if td.any (fun p => truthy p.2) then [("timeRange", tv)] else [])
      | _ => none
    else some []
  | none => some []

/-- Python `d.get(k) is not None`: the key is present with a non-null value. -/
def hasNonNull (d : List (String × JVal)) (k : String) : Bool :=
  match lookupKey d k with
  | some JVal.jnull => false
  | some _ => true
  | none => false

/-- Lines 350-351: nested `filters.price` is copied when truthy with a
non-null `min` or `max`; `.get` on a truthy non-dict raises (`none`). -/
def priceField (fd : List (String × JVal)) : Option (List (String × JVal)) :=
  match lookupKey fd "price" with
  | some pv =>
    if truthy pv then
      match pv with
      | JVal.jobj pd =>
        some (if hasNonNull pd "min" || hasNonNull pd "max" then [("price", pv)] else [])
      | _ => none
    else some []
  | none => some []

/-- Lines 335-354: the `filters` block. A truthy non-dict `filters` raises
at the first `.get` (`none`); the assembled `final_filters` keeps the
source's field order and is attached only when non-empty. -/
def filtersStep (d : List (String × JVal)) : Option (List (String × JVal)) :=
  match lookupKey d "filters" with
  | some fv =>
    if truthy fv then
      match fv with
      | JVal.jobj fd => do
        let tr ← timeRangeField fd
        let pr ← priceField fd
        let ff := truthyField fd "categories" ++ truthyField fd "stores" ++
          truthyField fd "lists" ++ tr ++ truthyField fd "clearAll" ++ pr
        some (if ff.isEmpty then [] else [("filters", JVal.jobj ff)])
      | _ => none
    else some []
  | none => some []

/-- Lines 356-360: a root-level `price` whose `min` or `max` is present and
non-null is written into the output's `filters.price`, creating the
`filters` entry if needed and displacing any nested price already copied;
`.get` on a non-dict root `price` raises (`none`). -/
def rootPriceStep (d cur : List (String × JVal)) : Option (List (String × JVal)) :=
  match lookupKey d "price" with
  | none => some cur
  | some pv =>
    match pv with
    | JVal.jobj pd =>
      if hasNonNull pd "min" || hasNonNull pd "max" then
        some (match lookupKey cur "filters" with
          | some (JVal.jobj ff) => setKey cur "filters" (JVal.jobj (setKey ff "price" pv))
          | _ => setKey cur "filters" (JVal.jobj [("price", pv)]))
      else some cur
    | _ => none

/-- Lines 374-376: `closeTabs` is emitted as the literal `True` when the
payload's value is truthy. -/
def closeTabsField (d : List (String × JVal)) : List (String × JVal) :=
  match lookupKey d "closeTabs" with
  | some v => if truthy v then [("closeTabs", JVal.jbool true)] else []
  | none => []

/-- Line 379: `response_message` is always emitted; the payload's value is
passed through whenever the key is present (whatever it is), and the fixed
fallback text is used only when the key is absent. -/
def responseMessageField (d : List (String × JVal)) : List (String × JVal) :=
  [("response_message", (lookupKey d "response_message").getD (JVal.jstr defaultResponseMessage))]

/-- Lines 331-386 applied to a decoded payload. A decoded non-dict raises
before any field is emitted (numbers, booleans and null at the `in`
membership test, strings and lists at the first `.get`), so every non-dict
maps to `none`; field order in the result is the source's emission order. -/
def normalizeDecoded : JVal → Option (List (String × JVal))
  | JVal.jobj d => do
    let f1 ← filtersStep d
    let f2 ← rootPriceStep d f1
    some (f2 ++ truthyField d "view_mode" ++ truthyField d "sort_by" ++
      truthyField d "group_by" ++ closeTabsField d ++ responseMessageField d ++
      truthyField d "generalResponse")
  | _ => none

/-- `_parse_llm_response` (dashboard_handler.py lines 315-397): fence
cleanup, JSON decoding (decode failure yields the parse-error fallback),
then normalization (any exception yields the unexpected-error fallback). -/
def parse_llm_response (s : String) : List (String × JVal) :=
  match json_loads_chars (cleanReply s.data) with
  | none => parseErrorFallback
  | some v => (normalizeDecoded v).getD unexpectedErrorFallback

/-! ## Handlers and router -/

/-- The generic error text of dashboard_handler.py line 59 and
extension_handler.py line 120. -/
def handlerErrorMessage : String :=
  "I encountered an error processing your request. Please try again."

/-- Lines 56-60 of dashboard_handler.py: the fallback result when anything
in `process_query` raises. -/
def dashboardErrorResponse : List (String × JVal) :=
  [("response_message", JVal.jstr handlerErrorMessage)]

/-- Dashboard `process_query` as a function of the completion engine's
reply text; `none` stands for an exception anywhere before the normalizer
runs (context preparation or the OpenAI call), converted by lines 56-60. -/
def dashboard_process_query : Option String → List (String × JVal)
  | some reply => parse_llm_response reply
  | none => dashboardErrorResponse

/-- Python `str.strip` on a string. -/
def pyStripStr (s : String) : String := String.mk (pyStrip s.data)

/-- Lines 143-147 of settings_handler.py. -/
def settingsErrorText : String :=
  "I'm sorry, I encountered an error while processing your request. Please try again later."

/-- Settings handler `process_query` (settings_handler.py lines 18-147) as
a function of the completion message content: success wraps the stripped
content as `generalResponse` and nothing else; `none` stands for any
exception (including a null content, whose `.strip()` raises). Note the
result never contains a `response_message` key. -/
def settings_process_query : Option String → List (String × JVal)
  | some content => [("generalResponse", JVal.jstr (pyStripStr content))]
  | none => [("generalResponse", JVal.jstr settingsErrorText)]

/-- The completion result consumed by the extension handler: the
function-call arguments string, if any, and the plain message content. -/
structure ExtMessage where
  functionCallArgs : Option String
  content : Option String

/-- Line 103/110 of extension_handler.py. -/
def extUnsureText : String := "I'm not sure how to respond to that."

/-- Lines 117-121 of extension_handler.py. -/
def extensionErrorResponse : List (String × JVal) :=
  [("response_message", JVal.jstr handlerErrorMessage)]

/-- Lines 109-115: the plain-text fallback; a falsy (absent or empty)
content is replaced by the fixed text, a truthy one is stripped. -/
def extensionTextFallback : Option String → List (String × JVal)
  | some c => [("response_message", JVal.jstr (if c ≠ "" then pyStripStr c else extUnsureText))]
  | none => [("response_message", JVal.jstr extUnsureText)]

/-- Extension handler `process_query` (extension_handler.py lines 94-121)
as a function of the completion result. With truthy function-call
arguments that decode to a dict, the structured result carries
`response_message` (defaulted when absent) and always a `goto` key, null
when the payload had none; arguments decoding to a non-dict raise at
`.get`, reaching the outer handler (error response); a decode failure is
caught and falls through to the text fallback, as do absent or falsy
arguments. -/
def extension_process_query (msg : ExtMessage) : List (String × JVal) :=
  match msg.functionCallArgs with
  | some args =>
    if args ≠ "" then
      match json_loads args with
      | some (JVal.jobj d) =>
        [("response_message", (lookupKey d "response_message").getD (JVal.jstr extUnsureText)),
         ("goto", (lookupKey d "goto").getD JVal.jnull)]
      | some _ => extensionErrorResponse
      | none => extensionTextFallback msg.content
    else extensionTextFallback msg.content
  | none => extensionTextFallback msg.content

/-- The three handler variants. -/
inductive Handler where
  | dashboard : Handler
  | settings : Handler
  | extension : Handler
deriving DecidableEq

/-- The routing decision of `process_unified_query` (chat_service.py lines
44-55): `metadata.get("page", "dashboard")` compared by `==` against the
two special page names; every other value, of any type, falls to the
dashboard handler. -/
def selectHandler (metadata : List (String × JVal)) : Handler :=
  match (lookupKey metadata "page").getD (JVal.jstr "dashboard") with
  | JVal.jstr s =>
    if s = "settings" then Handler.settings
    else if s = "extension" then Handler.extension
    else Handler.dashboard
  | _ => Handler.dashboard

/-- The completion-engine outcomes available to the three handlers within
one request, as an oracle value: the router's result may consult at most
one of them. -/
structure EngineOracle where
  dashboardReply : Option String
  settingsContent : Option String
  extensionMsg : ExtMessage

/-- `process_unified_query`: dispatch on the routing decision. -/
def process_unified_query (o : EngineOracle) (metadata : List (String × JVal)) :
    List (String × JVal) :=
  match selectHandler metadata with
  | Handler.settings => settings_process_query o.settingsContent
  | Handler.extension => extension_process_query o.extensionMsg
  | Handler.dashboard => dashboard_process_query o.dashboardReply

/-! ## The unified chat endpoint -/

/-- Outcome of a route call: a JSON body or an `HTTPException`. -/
inductive ChatResult where
  | ok : List (String × JVal) → ChatResult
  | httpError : Nat → String → ChatResult

/-- Settings.MAX_QUERY_LENGTH (config/settings.py line 26). -/
def MAX_QUERY_LENGTH : Nat := 500

/-- `unified_chat_processor` (chat.py lines 16-70). The request body is the
decoded JSON object; the chat service appears only as the oracle value
`handlerResult`, which the validation branches never consult. A query
without a length raises `TypeError` at `len(query)`, caught by lines 65-70
(the 500 branch); its detail text stands for the wrapped `str(e)`. -/
def unified_chat_processor (handlerResult : List (String × JVal))
    (request : List (String × JVal)) : ChatResult :=
  match lookupKey request "query" with
  | none => ChatResult.httpError 400 "Invalid request format. Must include 'query' field."
  | some q =>
    match pyLen q with
    | none => ChatResult.httpError 500 "Error processing chat request: unsized query"
    | some n =>
      if MAX_QUERY_LENGTH < n then
        ChatResult.httpError 400
          ("Query exceeds maximum length of " ++ toString MAX_QUERY_LENGTH ++ " characters")
      else ChatResult.ok handlerResult

/-! ## The dashboard context formatter (`_prepare_context`) -/

/-- Python `str()` of a JSON-decoded value as interpolated by an f-string.
Strings interpolate as themselves and the scalar constants as Python
spells them; the rendering of containers is abstracted by the JSON
serialization (it only ever feeds prompt text, and no claim depends on
it). -/
def pyStr : JVal → String
  | JVal.jstr s => s
  | JVal.jnull => "None"
  | JVal.jbool true => "True"
  | JVal.jbool false => "False"
  | v => json_dumps v

/-- Line 74's comprehension
`[item.get('name', '') for item in context.get('availableLists', [])]`:
each dict item contributes its `name` (default `""`); a non-dict item, or
a truthy non-iterable collection, raises (`none`); an empty string or
empty dict iterates to nothing. -/
def availableListNames : JVal → Option (List JVal)
  | JVal.jarr items => items.mapM (fun it =>
      match it with
      | JVal.jobj d => some ((lookupKey d "name").getD (JVal.jstr ""))
      | _ => none)
  | JVal.jstr s => if s = "" then some [] else none
  | JVal.jobj l => if l.isEmpty then some [] else none
  | _ => none

/-- Lines 91-96 of dashboard_handler.py:
`filters.get(k) and len(filters.get(k)) > 0`; `len` on a truthy value
without a length raises (`none`). -/
def collNonEmpty (fd : List (String × JVal)) (k : String) : Option Bool :=
  match lookupKey fd k with
  | some v => if truthy v then (pyLen v).map (fun n => 0 < n) else some false
  | none => some false

/-- Truthiness of an optional value (`d.get(k)` under `or`/`and`). -/
def truthyOpt : Option JVal → Bool
  | some v => truthy v
  | none => false

/-- Lines 97-98: `filters.get('timeRange') and any(...values())`. -/
def timeRangeNonEmpty (fd : List (String × JVal)) : Option Bool :=
  match lookupKey fd "timeRange" with
  | some tv =>
    if truthy tv then
      match tv with
      | JVal.jobj td => some (td.any (fun p => truthy p.2))
      | _ => none
    else some false
  | none => some false

/-- Lines 99-100: `filters.get('price') and (...get('min') or ...get('max'))`.
The bounds are tested for truthiness, so a present `0` bound counts the
same as an absent one. -/
def priceNonEmptyCode (fd : List (String × JVal)) : Option Bool :=
  match lookupKey fd "price" with
  | some pv =>
    if truthy pv then
      match pv with
      | JVal.jobj pd => some (truthyOpt (lookupKey pd "min") || truthyOpt (lookupKey pd "max"))
      | _ => none
    else some false
  | none => some false

/-- Lines 88-100: the `filters_empty` flag computed for a truthy uiState
dict: true unless one of the five per-field checks fires; `none` models an
exception inside a check. -/
def filtersEmptyCheck (ud : List (String × JVal)) : Option Bool :=
  match lookupKey ud "filters" with
  | some fv =>
    if truthy fv then
      match fv with
      | JVal.jobj fd => do
        let c1 ← collNonEmpty fd "categories"
        let c2 ← collNonEmpty fd "stores"
        let c3 ← collNonEmpty fd "lists"
        let c4 ← timeRangeNonEmpty fd
        let c5 ← priceNonEmptyCode fd
        some (!(c1 || c2 || c3 || c4 || c5))
      | _ => none
    else some true
  | none => some true

/-- Line 103: the filter-clear directive part (with its leading newline, as
appended). -/
def filterClearDirective : String :=
  "\nIMPORTANT: ALL FILTERS HAVE BEEN MANUALLY CLEARED. IGNORE ANY FILTER REFERENCES IN LAST CONVERSATION."

/-- Line 115: the reminder appended after the last conversation when the
filters were cleared. -/
def filtersInactiveNote : String :=
  "\nNOTE: The filters mentioned in the last conversation are no longer active. All filters have been cleared."

/-- Lines 69-78: the fixed head of the context block — current date and
the available-option vocabularies. -/
def baseParts (ctx : List (String × JVal)) (nowFmt nowIso : String) (names : List JVal) :
    List String :=
  ["CURRENT DATE: " ++ (nowFmt ++ " (" ++ nowIso ++ ")"),
    "\nAVAILABLE OPTIONS:",
    "- Categories: " ++ json_dumps ((lookupKey ctx "availableCategories").getD (JVal.jarr [])),
    "- Stores: " ++ json_dumps ((lookupKey ctx "availableStores").getD (JVal.jarr [])),
    "- Lists: " ++ json_dumps (JVal.jarr names),
    "- View Modes: " ++ json_dumps ((lookupKey ctx "availableViewModes").getD (JVal.jarr [])),
    "- Sort Options: " ++ json_dumps ((lookupKey ctx "availableSortOptions").getD (JVal.jarr [])),
    "- Group Options: " ++ json_dumps ((lookupKey ctx "availableGroupOptions").getD (JVal.jarr []))]

/-- Lines 80-104: the current-UI-state block and the `ui_state_empty`
flag. A falsy `uiState` contributes nothing; a truthy non-dict raises at
`ui_state.get('filters')` (`none`); otherwise the state is dumped and the
filter-clear directive appended exactly when `filters_empty` holds. -/
def uiStateParts (ctx : List (String × JVal)) : Option (List String × Bool) :=
  match (lookupKey ctx "uiState").getD JVal.jnull with
  | JVal.jobj ud =>
    if truthy (JVal.jobj ud) then
      (filtersEmptyCheck ud).map (fun fe =>
        (["\nCURRENT UI STATE:", json_dumps (JVal.jobj ud)] ++
          (if fe then [filterClearDirective] else []), fe))
    else some ([], false)
  | v => if truthy v then none else some ([], false)

/-- Lines 106-115: the last-conversation block, shown when the prior turn
is truthy with truthy `query` and `response`; a truthy non-dict raises at
`.get` (`none`); the cleared-filters note is appended when the UI block
set `ui_state_empty`. -/
def lastConvParts (ctx : List (String × JVal)) (uiEmpty : Bool) : Option (List String) :=
  match (lookupKey ctx "lastConversation").getD JVal.jnull with
  | JVal.jobj ld =>
    if truthy (JVal.jobj ld) then
      if truthy ((lookupKey ld "query").getD JVal.jnull) &&
          truthy ((lookupKey ld "response").getD JVal.jnull) then
        some (["\nLAST CONVERSATION:",
          "User: " ++ pyStr ((lookupKey ld "query").getD JVal.jnull),
          "Assistant: " ++ pyStr ((lookupKey ld "response").getD JVal.jnull)] ++
          (if uiEmpty then [filtersInactiveNote] else []))
      else some []
    else some []
  | v => if truthy v then none else some []

/-- `_prepare_context` (dashboard_handler.py lines 62-119) as the ordered
list of context parts whose `"\n"`-join (line 117) is the returned block;
`nowFmt`/`nowIso` stand for the two renderings of `datetime.now()` and
`none` for an exception escaping to `process_query`'s handler. The
whitespace conventions of `json.dumps` (`", "` separators, `indent=2` for
the UI state) are abstracted by the compact serialization; no claim
depends on the whitespace inside a serialized part. -/
def prepare_context_parts (ctx : List (String × JVal)) (nowFmt nowIso : String) :
    Option (List String) :=
  (availableListNames ((lookupKey ctx "availableLists").getD (JVal.jarr []))).bind
    (fun names => (uiStateParts ctx).bind
      (fun ui => (lastConvParts ctx ui.2).map
        (fun last => baseParts ctx nowFmt nowIso names ++ ui.1 ++ last)))

/-! ## The conversation store (`ChatMessage`) -/

/-- BSON `ObjectId.is_valid` on a string: exactly 24 hexadecimal
characters. -/
def isValidObjectId (s : String) : Bool :=
  s.length = 24 && s.data.all (fun c => c.isDigit || ('a' ≤ c && c ≤ 'f') || ('A' ≤ c && c ≤ 'F'))

/-- The BSON value stored in a document's `userId` field: either a
canonical ObjectId or a plain string. The two are distinct BSON types and
never compare equal in a Mongo query filter. -/
inductive UserKey where
  | oid : String → UserKey
  | strKey : String → UserKey
deriving DecidableEq

/-- A persisted chat turn (collection `chatmessages`). -/
structure StoredDoc where
  userId : UserKey
  query : String
  responseText : String
  source : JVal
  page : JVal
  createdAt : Nat

/-- `ChatMessage.create_message` (chat_message.py lines 29-65): source and
page come from the metadata when truthy-provided, the userId is stored as
an ObjectId exactly when the string is a valid one, and the document is
inserted. -/
def create_message (store : List StoredDoc) (user_id query_text response_text : String)
    (metadata : Option (List (String × JVal))) (now : Nat) : List StoredDoc :=
  let source := (metadata.bind (fun md => lookupKey md "source")).getD (JVal.jstr "webapp")
  let page := (metadata.bind (fun md => lookupKey md "page")).getD (JVal.jstr "dashboard")
  let key := if isValidObjectId user_id then UserKey.oid user_id else UserKey.strKey user_id
  store ++ [⟨key, query_text, response_text, source, page, now⟩]

/-- Mongo's `sort([("createdAt", -1)])` order: newest first. -/
def newestFirst (a b : StoredDoc) : Prop := b.createdAt ≤ a.createdAt

instance : DecidableRel newestFirst := fun _ _ => Nat.decLe _ _

instance : IsTotal StoredDoc newestFirst := ⟨fun a b => Nat.le_total b.createdAt a.createdAt⟩

instance : IsTrans StoredDoc newestFirst := ⟨fun _ _ _ h1 h2 => Nat.le_trans h2 h1⟩

/-- The query filter `{"userId": key, "createdAt": {"$lt": before}}`. -/
def docMatches (key : UserKey) (before : Nat) (d : StoredDoc) : Bool :=
  d.userId == key && d.createdAt < before

/-- One `find(filter).sort([("createdAt", -1)]).limit(limit)` round-trip. -/
def mongoPage (store : List StoredDoc) (key : UserKey) (before limit : Nat) :
    List StoredDoc :=
  (List.insertionSort newestFirst (store.filter (docMatches key before))).take limit

/-- `ChatMessage.get_user_conversations` (lines 67-96): an invalid ObjectId
string short-circuits to `[]` (line 78) without any query; otherwise the
ObjectId-keyed page is used, with the string-keyed page as fallback only
when the first came back empty, and the page is reversed into
chronological order (line 93). -/
def get_user_conversations (store : List StoredDoc) (user_id : String) (limit : Nat)
    (before : Option Nat) (now : Nat) : List StoredDoc :=
  if isValidObjectId user_id then
    if (mongoPage store (UserKey.oid user_id) (before.getD now) limit).isEmpty then
      (mongoPage store (UserKey.strKey user_id) (before.getD now) limit).reverse
    else (mongoPage store (UserKey.oid user_id) (before.getD now) limit).reverse
  else []

/-- `ChatMessage.delete_user_conversations` (lines 98-105): deletes only
ObjectId-keyed documents, and only for a valid ObjectId string; returns
the new store contents and `deleted_count`. -/
def delete_user_conversations (store : List StoredDoc) (user_id : String) :
    List StoredDoc × Nat :=
  if isValidObjectId user_id then
    (store.filter (fun d => !(d.userId == UserKey.oid user_id)),
      (store.filter (fun d => d.userId == UserKey.oid user_id)).length)
  else (store, 0)

/-- `ChatMessage.count_user_messages` (lines 107-113). -/
def count_user_messages (store : List StoredDoc) (user_id : String) : Nat :=
  if isValidObjectId user_id then
    (store.filter (fun d => d.userId == UserKey.oid user_id)).length
  else 0

/-- `GET /conversations` (chat_conversations.py lines 73-112) with
FastAPI's `Query(50, ge=1, le=100)` validation: `none` is the 422
validation rejection of an out-of-range explicit limit; the per-turn
formatting of lines 88-104 is a field renaming that keeps order and count,
so the route result is modelled by the documents themselves. -/
def get_conversations_route (store : List StoredDoc) (user_id : String)
    (limitOpt before : Option Nat) (now : Nat) : Option (List StoredDoc) :=
  let limit := limitOpt.getD 50
  if 1 ≤ limit ∧ limit ≤ 100 then some (get_user_conversations store user_id limit before now)
  else none

/-- `DELETE /conversations` (lines 114-125): the new store and the
response's `count`. -/
def delete_conversations_route (store : List StoredDoc) (user_id : String) :
    List StoredDoc × Nat :=
  delete_user_conversations store user_id

/-! ## Canonical form of normalized outputs

The normalizer's output is a fixed-order record of optional fields; the
following definitions name that shape so the idempotence and invariant
proofs can compute with it. -/

/-- A field that is present or absent. -/
def optEntry (k : String) : Option JVal → List (String × JVal)
  | some v => [(k, v)]
  | none => []

/-- The value that a truthiness-gated copy contributes, if any. -/
def truthyOptField (d : List (String × JVal)) (k : String) : Option JVal :=
  match lookupKey d k with
  | some v => if truthy v then some v else none
  | none => none

/-- The value the `closeTabs` flag contributes, if any. -/
def closeTabsOpt (d : List (String × JVal)) : Option JVal :=
  match lookupKey d "closeTabs" with
  | some v => if truthy v then some (JVal.jbool true) else none
  | none => none

/-- The `response_message` value that is always emitted. -/
def respMsgVal (d : List (String × JVal)) : JVal :=
  (lookupKey d "response_message").getD (JVal.jstr defaultResponseMessage)

/-- The assembled `final_filters` dict, in the source's field order. -/
def filtAssemble (c s li t a p : Option JVal) : List (String × JVal) :=
  optEntry "categories" c ++ optEntry "stores" s ++ optEntry "lists" li ++
    optEntry "timeRange" t ++ optEntry "clearAll" a ++ optEntry "price" p

/-- The assembled normalized response, in the source's field order. -/
def normAssemble (fopt vm sb gb ct : Option JVal) (rv : JVal) (gr : Option JVal) :
    List (String × JVal) :=
  optEntry "filters" fopt ++ optEntry "view_mode" vm ++ optEntry "sort_by" sb ++
    optEntry "group_by" gb ++ optEntry "closeTabs" ct ++ [("response_message", rv)] ++
    optEntry "generalResponse" gr

/-- An optional field that, when present, holds a truthy well-formed value. -/
def OptTruthyWf (o : Option JVal) : Prop :=
  ∀ v, o = some v → truthy v = true ∧ wfJ v = true

/-- The shape of an emitted `timeRange`: truthy well-formed dict with some
truthy value. -/
def OptTRWf (o : Option JVal) : Prop :=
  ∀ v, o = some v → truthy v = true ∧ wfJ v = true ∧
    ∃ td, v = JVal.jobj td ∧ td.any (fun p => truthy p.2) = true

/-- The shape of an emitted `price`: a well-formed dict with a non-null
`min` or `max`. -/
def OptPriceWf (o : Option JVal) : Prop :=
  ∀ v, o = some v → wfJ v = true ∧
    ∃ pd, v = JVal.jobj pd ∧ (hasNonNull pd "min" || hasNonNull pd "max") = true

/-- The shape of an emitted `closeTabs`: the literal `True`. -/
def OptClose (o : Option JVal) : Prop :=
  ∀ v, o = some v → v = JVal.jbool true

/-- A canonical `final_filters` dict. -/
def FiltCanon (ff : List (String × JVal)) : Prop :=
  ∃ c s li t a p, ff = filtAssemble c s li t a p ∧ OptTruthyWf c ∧ OptTruthyWf s ∧
    OptTruthyWf li ∧ OptTRWf t ∧ OptTruthyWf a ∧ OptPriceWf p

/-- The shape of the output's optional `filters` entry. -/
def FOpt (fopt : Option JVal) : Prop :=
  ∀ v, fopt = some v → ∃ ff, v = JVal.jobj ff ∧ ff ≠ [] ∧ FiltCanon ff

/-! ## Parse-call accounting for the round-trip proof -/

mutual

/-- Number of parser calls needed to consume a printed value. -/
def needV : JVal → Nat
  | JVal.jarr [] => 1
  | JVal.jarr (v :: vs) => 1 + needItems (v :: vs)
  | JVal.jobj [] => 1
  | JVal.jobj (m :: ms) => 1 + needMembers (m :: ms)
  | _ => 1

/-- Number of parser calls needed to consume printed array elements. -/
def needItems : List JVal → Nat
  | [] => 1
  | v :: vs => 1 + needV v + needItems vs

/-- Number of parser calls needed to consume printed object members. -/
def needMembers : List (String × JVal) → Nat
  | [] => 1
  | (_, v) :: ms => 1 + needV v + needMembers ms

end

/-- Input tails that may legally follow a printed number: empty, or headed
by a non-digit delimiter, so `takeDigits` stops exactly at the end of the
printed digits. -/
def noDigitHead : List Char → Bool
  | [] => true
  | c :: _ => !c.isDigit

/-! ## Specification-side definitions (for refinement comparisons) -/

/-- Stated from the spec's §3 words, for comparison with the code's test:
a collection field is empty when absent or an empty collection. -/
def specCollEmpty : Option JVal → Bool
  | none => true
  | some (JVal.jarr l) => l.isEmpty
  | some _ => false

/-- Stated from the spec's §3 words: the time range is empty when absent
or holding no non-empty value. -/
def specTimeRangeEmpty : Option JVal → Bool
  | none => true
  | some (JVal.jobj td) => !td.any (fun p => truthy p.2)
  | some _ => false

/-- Stated from the spec's §3 words: the price is empty when `min` and
`max` are each absent (a null bound counting as absent). A present `0`
bound makes the price non-empty under this definition. -/
def specPriceEmpty : Option JVal → Bool
  | none => true
  | some (JVal.jobj pd) => !hasNonNull pd "min" && !hasNonNull pd "max"
  | some _ => false

/-- Stated from the spec's §3 words: every field of the UI filter state is
empty — empty categories/stores/lists collections, absent/empty time
range, absent price min and max. -/
def specFilterStateEmpty (fd : List (String × JVal)) : Bool :=
  specCollEmpty (lookupKey fd "categories") && specCollEmpty (lookupKey fd "stores") &&
    specCollEmpty (lookupKey fd "lists") && specTimeRangeEmpty (lookupKey fd "timeRange") &&
    specPriceEmpty (lookupKey fd "price")

/-! ## Basic lemmas about dict operations -/

theorem lookupKey_append (l1 l2 : List (String × JVal)) (k : String) :
    lookupKey (l1 ++ l2) k =
      (match lookupKey l1 k with
       | some v => some v
       | none => lookupKey l2 k) := by
  induction l1 with
  | nil => simp [lookupKey]
  | cons p rest ih =>
    obtain ⟨k0, v0⟩ := p
    by_cases h : k0 = k <;> simp [lookupKey, h, ih]

theorem lookupKey_setKey_self (l : List (String × JVal)) (k : String) (v : JVal) :
    lookupKey (setKey l k v) k = some v := by
  induction l with
  | nil => simp [setKey, lookupKey]
  | cons p rest ih =>
    obtain ⟨k0, v0⟩ := p
    by_cases h : k0 = k <;> simp [setKey, lookupKey, h, ih]

theorem keyMem_append (k : String) (l1 l2 : List (String × JVal)) :
    keyMem k (l1 ++ l2) = (keyMem k l1 || keyMem k l2) := by
  induction l1 with
  | nil => simp [keyMem]
  | cons p rest ih =>
    obtain ⟨k0, v0⟩ := p
    by_cases h : k0 = k <;> simp [keyMem, h, ih]

theorem setKey_of_not_mem (l : List (String × JVal)) (k : String) (v : JVal)
    (h : keyMem k l = false) : setKey l k v = l ++ [(k, v)] := by
  induction l with
  | nil => simp [setKey]
  | cons p rest ih =>
    obtain ⟨k0, v0⟩ := p
    simp [keyMem] at h
    simp [setKey, h.1, ih h.2]

theorem setKey_append_right (l1 l2 : List (String × JVal)) (k : String) (v : JVal)
    (h : keyMem k l1 = false) : setKey (l1 ++ l2) k v = l1 ++ setKey l2 k v := by
  induction l1 with
  | nil => simp
  | cons p rest ih =>
    obtain ⟨k0, v0⟩ := p
    simp [keyMem] at h
    simp [setKey, h.1, ih h.2]

/-! ## Well-formedness utilities -/

theorem wfArr_append (a b : List JVal) : wfArr (a ++ b) = (wfArr a && wfArr b) := by
  induction a with
  | nil => simp [wfArr]
  | cons v rest ih => simp [wfArr, ih, Bool.and_assoc]

theorem wfObj_append (a b : List (String × JVal)) :
    wfObj (a ++ b) = (wfObj a && wfObj b) := by
  induction a with
  | nil => simp [wfObj]
  | cons p rest ih =>
    obtain ⟨k, v⟩ := p
    simp [wfObj, ih, Bool.and_assoc]

theorem keyMem_setKey (j k : String) (v : JVal) (l : List (String × JVal)) :
    keyMem j (setKey l k v) = (keyMem j l || decide (k = j)) := by
  induction l with
  | nil => simp [setKey, keyMem]
  | cons p rest ih =>
    obtain ⟨k0, v0⟩ := p
    by_cases h : k0 = k
    · subst h
      by_cases h2 : k0 = j <;> simp [setKey, keyMem, h2]
    · simp [setKey, h, keyMem, ih, Bool.or_assoc]

theorem nodupKeys_setKey (l : List (String × JVal)) (k : String) (v : JVal)
    (h : nodupKeys l = true) : nodupKeys (setKey l k v) = true := by
  induction l with
  | nil => simp [setKey, nodupKeys, keyMem]
  | cons p rest ih =>
    obtain ⟨k0, v0⟩ := p
    simp [nodupKeys] at h
    by_cases hk : k0 = k
    · subst hk
      simp [setKey, nodupKeys, h.1, h.2]
    · simp [setKey, hk, nodupKeys, keyMem_setKey, ih h.2, h.1]
      exact fun hkj => absurd hkj.symm hk

theorem wfObj_setKey (l : List (String × JVal)) (k : String) (v : JVal)
    (hl : wfObj l = true) (hv : wfJ v = true) : wfObj (setKey l k v) = true := by
  induction l with
  | nil => simp [setKey, wfObj, hv]
  | cons p rest ih =>
    obtain ⟨k0, v0⟩ := p
    simp [wfObj] at hl
    by_cases hk : k0 = k
    · subst hk
      simp [setKey, wfObj, hv, hl.2]
    · simp [setKey, hk, wfObj, hl.1, ih hl.2]

theorem wf_lookup {d : List (String × JVal)} {k : String} {v : JVal}
    (hwf : wfObj d = true) (h : lookupKey d k = some v) : wfJ v = true := by
  induction d with
  | nil => simp [lookupKey] at h
  | cons p rest ih =>
    obtain ⟨k0, v0⟩ := p
    simp [wfObj] at hwf
    by_cases hk : k0 = k
    · rw [lookupKey, if_pos hk] at h
      injection h with h
      rw [← h]
      exact hwf.1
    · rw [lookupKey, if_neg hk] at h
      exact ih hwf.2 h

theorem wfJ_obj_eq (l : List (String × JVal)) :
    wfJ (JVal.jobj l) = (nodupKeys l && wfObj l) := rfl

theorem wfObj_of_wfJ_obj {l : List (String × JVal)} (h : wfJ (JVal.jobj l) = true) :
    wfObj l = true := by
  rw [wfJ_obj_eq] at h
  simp at h
  exact h.2

theorem hasNonNull_truthy {pd : List (String × JVal)} {k : String}
    (h : hasNonNull pd k = true) : truthy (JVal.jobj pd) = true := by
  cases pd with
  | nil => simp [hasNonNull, lookupKey] at h
  | cons p rest => simp [truthy]

/-! ## Computation lemmas for the assembled output shapes -/

theorem lookup_normAssemble (fopt vm sb gb ct : Option JVal) (rv : JVal) (gr : Option JVal) :
    lookupKey (normAssemble fopt vm sb gb ct rv gr) "filters" = fopt ∧
    lookupKey (normAssemble fopt vm sb gb ct rv gr) "view_mode" = vm ∧
    lookupKey (normAssemble fopt vm sb gb ct rv gr) "sort_by" = sb ∧
    lookupKey (normAssemble fopt vm sb gb ct rv gr) "group_by" = gb ∧
    lookupKey (normAssemble fopt vm sb gb ct rv gr) "closeTabs" = ct ∧
    lookupKey (normAssemble fopt vm sb gb ct rv gr) "response_message" = some rv ∧
    lookupKey (normAssemble fopt vm sb gb ct rv gr) "generalResponse" = gr ∧
    lookupKey (normAssemble fopt vm sb gb ct rv gr) "price" = none := by
  cases fopt <;> cases vm <;> cases sb <;> cases gb <;> cases ct <;> cases gr <;>
    exact ⟨rfl, rfl, rfl, rfl, rfl, rfl, rfl, rfl⟩

theorem lookup_filtAssemble (c s li t a p : Option JVal) :
    lookupKey (filtAssemble c s li t a p) "categories" = c ∧
    lookupKey (filtAssemble c s li t a p) "stores" = s ∧
    lookupKey (filtAssemble c s li t a p) "lists" = li ∧
    lookupKey (filtAssemble c s li t a p) "timeRange" = t ∧
    lookupKey (filtAssemble c s li t a p) "clearAll" = a ∧
    lookupKey (filtAssemble c s li t a p) "price" = p := by
  cases c <;> cases s <;> cases li <;> cases t <;> cases a <;> cases p <;>
    exact ⟨rfl, rfl, rfl, rfl, rfl, rfl⟩

theorem nodup_normAssemble (fopt vm sb gb ct : Option JVal) (rv : JVal) (gr : Option JVal) :
    nodupKeys (normAssemble fopt vm sb gb ct rv gr) = true := by
  cases fopt <;> cases vm <;> cases sb <;> cases gb <;> cases ct <;> cases gr <;> rfl

theorem nodup_filtAssemble (c s li t a p : Option JVal) :
    nodupKeys (filtAssemble c s li t a p) = true := by
  cases c <;> cases s <;> cases li <;> cases t <;> cases a <;> cases p <;> rfl

theorem setKey_filtAssemble_price (c s li t a p : Option JVal) (pv : JVal) :
    setKey (filtAssemble c s li t a p) "price" pv = filtAssemble c s li t a (some pv) := by
  cases c <;> cases s <;> cases li <;> cases t <;> cases a <;> cases p <;> rfl

theorem filtAssemble_ne_nil (c s li t a : Option JVal) (pv : JVal) :
    filtAssemble c s li t a (some pv) ≠ [] := by
  cases c <;> cases s <;> cases li <;> cases t <;> cases a <;>
    simp [filtAssemble, optEntry]

theorem setKey_optEntry_filters (fopt : Option JVal) (x : JVal) :
    setKey (optEntry "filters" fopt) "filters" x = [("filters", x)] := by
  cases fopt <;> rfl

theorem wfObj_optEntry (k : String) (o : Option JVal)
    (h : ∀ v, o = some v → wfJ v = true) : wfObj (optEntry k o) = true := by
  cases o with
  | none => rfl
  | some v => simp [optEntry, wfObj, h v rfl]

/-! ## Parser outputs are well-formed -/

theorem parse_wf_all (fuel : Nat) :
    (∀ l v r, parseV fuel l = some (v, r) → wfJ v = true) ∧
    (∀ l acc v r, wfArr acc = true → parseItems fuel l acc = some (v, r) → wfJ v = true) ∧
    (∀ l acc v r, nodupKeys acc = true → wfObj acc = true →
      parseMembers fuel l acc = some (v, r) → wfJ v = true) := by
  induction fuel with
  | zero =>
    refine ⟨?_, ?_, ?_⟩
    · intro l v r hp; simp [parseV] at hp
    · intro l acc v r _ hp; simp [parseItems] at hp
    · intro l acc v r _ _ hp; simp [parseMembers] at hp
  | succ fuel ih =>
    refine ⟨?_, ?_, ?_⟩
    · intro l v r hp
      rw [parseV] at hp
      rcases hsk : skipWs l with _ | ⟨c, rest⟩
      · rw [hsk] at hp; simp at hp
      rw [hsk] at hp
      dsimp only at hp
      split_ifs at hp
      · -- object
        split at hp
        · simp at hp
          rw [← hp.1]
          rfl
        · refine ih.2.2 _ _ _ _ ?_ ?_ hp <;> rfl
      · -- array
        split at hp
        · simp at hp
          rw [← hp.1]
          rfl
        · refine ih.2.1 _ _ _ _ ?_ hp
          rfl
      · -- string
        split at hp
        · simp at hp
          rw [← hp.1]
          rfl
        · simp at hp
      · -- true
        split at hp
        · simp at hp
          rw [← hp.1]
          rfl
        · simp at hp
      · -- false
        split at hp
        · simp at hp
          rw [← hp.1]
          rfl
        · simp at hp
      · -- null
        split at hp
        · simp at hp
          rw [← hp.1]
          rfl
        · simp at hp
      · -- negative number
        split at hp
        · simp at hp
        · simp at hp
          rw [← hp.1]
          rfl
      · -- positive number
        simp at hp
        rw [← hp.1]
        rfl
    · intro l acc v r hacc hp
      rw [parseItems] at hp
      rcases hpv : parseV fuel l with _ | ⟨v0, r0⟩
      · rw [hpv] at hp; simp at hp
      rw [hpv] at hp
      dsimp only at hp
      have hv0 : wfJ v0 = true := ih.1 _ _ _ hpv
      split at hp
      · exact ih.2.1 _ _ _ _ (by simp [wfArr_append, hacc, wfArr, hv0]) hp
      · simp at hp
        rw [← hp.1]
        simp [wfJ, wfArr_append, hacc, wfArr, hv0]
      · simp at hp
    · intro l acc v r hnd hacc hp
      rcases l with _ | ⟨c, r1⟩
      · simp [parseMembers] at hp
      by_cases hc : c = '"'
      swap
      · simp [parseMembers, hc] at hp
      subst hc
      rw [parseMembers] at hp
      rcases hsb : parseStringBody r1 with _ | ⟨kcs, r2⟩
      · rw [hsb] at hp; simp at hp
      rw [hsb] at hp
      dsimp only at hp
      rcases hsw : skipWs r2 with _ | ⟨c2, r3⟩
      · rw [hsw] at hp; simp at hp
      rw [hsw] at hp
      split at hp
      swap
      · simp at hp
      rename_i r3x heq
      injection heq with hceq hreq
      subst hreq
      rcases hpv : parseV fuel r3 with _ | ⟨v0, r4⟩
      · rw [hpv] at hp; simp at hp
      rw [hpv] at hp
      dsimp only at hp
      have hv0 : wfJ v0 = true := ih.1 _ _ _ hpv
      rcases hsw4 : skipWs r4 with _ | ⟨c4, r5⟩
      · rw [hsw4] at hp; simp at hp
      rw [hsw4] at hp
      split at hp
      · exact ih.2.2 _ _ _ _ (nodupKeys_setKey _ _ _ hnd) (wfObj_setKey _ _ _ hacc hv0) hp
      · simp at hp
        rw [← hp.1]
        simp [wfJ, nodupKeys_setKey _ _ _ hnd, wfObj_setKey _ _ _ hacc hv0]
      · simp at hp

theorem json_loads_wf {l : List Char} {v : JVal} (h : json_loads_chars l = some v) :
    wfJ v = true := by
  unfold json_loads_chars at h
  rcases hp : parseV (2 * l.length + 2) l with _ | ⟨v0, r⟩
  · rw [hp] at h; simp at h
  rw [hp] at h
  dsimp only at h
  split_ifs at h
  injection h with h
  rw [← h]
  exact (parse_wf_all _).1 _ _ _ hp

/-! ## The print-parse round trip -/

theorem skipWs_cons (c : Char) (l : List Char) (h : isJsonWs c = false) :
    skipWs (c :: l) = c :: l := by
  simp [skipWs, List.dropWhile_cons, h]

theorem parseStringBody_other {c : Char} (l cs r : List Char)
    (hc1 : ¬c = '"') (hc2 : ¬c = '\\')
    (h : parseStringBody l = some (cs, r)) :
    parseStringBody (c :: l) = some (c :: cs, r) := by
  rw [parseStringBody.eq_def]
  dsimp only
  rw [if_neg hc1, if_neg hc2, h]

theorem parseStringBody_esc {e d : Char} (l cs r : List Char)
    (he : ¬e = 'u') (hd : escDecode e = some d)
    (h : parseStringBody l = some (cs, r)) :
    parseStringBody ('\\' :: e :: l) = some (d :: cs, r) := by
  rw [parseStringBody.eq_def]
  dsimp only
  rw [if_neg (show ¬('\\' = '"') by decide), if_pos rfl]
  rw [if_neg he, hd, h]

theorem parseStringBody_escStr (cs rest : List Char) :
    parseStringBody (escStr cs ++ '"' :: rest) = some (cs, rest) := by
  induction cs with
  | nil =>
    rw [escStr, List.nil_append, parseStringBody.eq_def]
    dsimp only
    rw [if_pos rfl]
  | cons c cs ih =>
    rw [escStr, List.append_assoc]
    by_cases h1 : c = '"'
    · subst h1
      exact parseStringBody_esc _ _ _ (by decide) rfl ih
    by_cases h2 : c = '\\'
    · subst h2
      exact parseStringBody_esc _ _ _ (by decide) rfl ih
    rw [show escChar c = [c] from by rw [escChar, if_neg h1, if_neg h2]]
    exact parseStringBody_other _ _ _ h1 h2 ih

theorem natToRevDigits_lt_ten (fuel : Nat) :
    ∀ n d, d ∈ natToRevDigits fuel n → d < 10 := by
  induction fuel with
  | zero => intro n d hd; simp [natToRevDigits] at hd
  | succ fuel ih =>
    intro n d hd
    rw [natToRevDigits] at hd
    split_ifs at hd with h
    · simp at hd
    · rcases List.mem_cons.mp hd with h1 | h1
      · subst h1; exact Nat.mod_lt _ (by decide)
      · exact ih _ _ h1

theorem foldl_natToRevDigits (fuel : Nat) :
    ∀ n a, n < fuel →
      (natToRevDigits fuel n).reverse.foldl (fun acc d => acc * 10 + d) a =
        a * 10 ^ (natToRevDigits fuel n).length + n := by
  induction fuel with
  | zero => intro n a h; exact absurd h (Nat.not_lt_zero n)
  | succ fuel ih =>
    intro n a h
    rw [natToRevDigits]
    by_cases hn : n = 0
    · rw [if_pos hn]
      simp [hn]
    · rw [if_neg hn]
      have hlt : n / 10 < fuel := by
        have h2 : n / 10 < n := Nat.div_lt_self (Nat.pos_of_ne_zero hn) (by decide)
        omega
      rw [List.reverse_cons, List.foldl_append, ih (n / 10) a hlt]
      simp only [List.foldl_cons, List.foldl_nil, List.length_cons]
      rw [pow_succ, ← Nat.mul_assoc]
      have hdm : 10 * (n / 10) + n % 10 = n := Nat.div_add_mod n 10
      omega

theorem digitChar_ok (d : Nat) (h : d < 10) :
    (Nat.digitChar d).isDigit = true ∧ isJsonWs (Nat.digitChar d) = false ∧
    ¬Nat.digitChar d = '\x7b' ∧ ¬Nat.digitChar d = '[' ∧ ¬Nat.digitChar d = '"' ∧
    ¬Nat.digitChar d = 't' ∧ ¬Nat.digitChar d = 'f' ∧ ¬Nat.digitChar d = 'n' ∧
    ¬Nat.digitChar d = '-' ∧ ¬Nat.digitChar d = ']' ∧ ¬Nat.digitChar d = '\x7d' ∧
    digitVal (Nat.digitChar d) = d := by
  interval_cases d <;> exact (by decide)

theorem printNat_digits (m : Nat) :
    ∃ ds, printNat m = ds.map Nat.digitChar ∧ (∀ d ∈ ds, d < 10) ∧ ds ≠ [] ∧
      digitsToNat ds = m := by
  by_cases h : m = 0
  · subst h
    exact ⟨[0], rfl, by decide, by decide, rfl⟩
  · refine ⟨(natToRevDigits (m + 1) m).reverse, by rw [printNat, if_neg h], ?_, ?_, ?_⟩
    · intro d hd
      rw [List.mem_reverse] at hd
      exact natToRevDigits_lt_ten _ _ d hd
    · rw [natToRevDigits, if_neg h]
      simp
    · have h2 := foldl_natToRevDigits (m + 1) m 0 (Nat.lt_succ_self m)
      unfold digitsToNat
      rw [h2]
      simp

theorem takeDigits_digits (ds : List Nat) (h : ∀ d ∈ ds, d < 10) (rest : List Char)
    (hr : noDigitHead rest = true) :
    takeDigits (ds.map Nat.digitChar ++ rest) = (ds, rest) := by
  induction ds with
  | nil =>
    cases rest with
    | nil => rfl
    | cons c r =>
      rw [List.map_nil, List.nil_append, takeDigits]
      have hc : c.isDigit = false := by
        rw [noDigitHead] at hr
        simp at hr
        exact hr
      rw [hc]
      rfl
  | cons d ds ih =>
    have hd : d < 10 := h d (List.mem_cons_self _ _)
    obtain ⟨h1, _, _, _, _, _, _, _, _, _, _, h12⟩ := digitChar_ok d hd
    rw [List.map_cons, List.cons_append, takeDigits.eq_def]
    dsimp only
    rw [if_pos h1]
    rw [ih (fun x hx => h x (List.mem_cons_of_mem _ hx))]
    dsimp only
    rw [h12]

theorem printNat_head (m : Nat) :
    ∃ d t, printNat m = Nat.digitChar d :: t ∧ d < 10 := by
  obtain ⟨ds, hm, hlt, hne, _⟩ := printNat_digits m
  cases ds with
  | nil => exact absurd rfl hne
  | cons d t =>
    exact ⟨d, t.map Nat.digitChar, by rw [hm, List.map_cons],
      hlt d (List.mem_cons_self _ _)⟩

theorem printV_head (v : JVal) :
    ∃ c t, printV v = c :: t ∧ isJsonWs c = false ∧ ¬c = ']' ∧ ¬c = '\x7d' := by
  cases v with
  | jnull => exact ⟨'n', _, rfl, by decide, by decide, by decide⟩
  | jbool b =>
    rcases b with _ | _
    · exact ⟨'f', ['a', 'l', 's', 'e'], rfl, rfl, by decide, by decide⟩
    · exact ⟨'t', ['r', 'u', 'e'], rfl, rfl, by decide, by decide⟩
  | jnum n =>
    rw [show printV (JVal.jnum n) = printInt n from rfl, printInt]
    by_cases h : n < 0
    · rw [if_pos h]
      exact ⟨'-', _, rfl, by decide, by decide, by decide⟩
    · rw [if_neg h]
      obtain ⟨d, t, ht, hd⟩ := printNat_head n.natAbs
      rw [ht]
      obtain ⟨_, hws, _, _, _, _, _, _, _, hne1, hne2, _⟩ := digitChar_ok d hd
      exact ⟨Nat.digitChar d, t, rfl, hws, hne1, hne2⟩
  | jstr s => exact ⟨'"', _, rfl, by decide, by decide, by decide⟩
  | jarr l => exact ⟨'[', _, rfl, by decide, by decide, by decide⟩
  | jobj l => exact ⟨'\x7b', _, rfl, by decide, by decide, by decide⟩

theorem printItems_cons_head (v : JVal) (vs : List JVal) :
    ∃ c t, printItems (v :: vs) = c :: t ∧ isJsonWs c = false ∧ ¬c = ']' ∧
      ¬c = '\x7d' := by
  obtain ⟨c, t, hv, h1, h2, h3⟩ := printV_head v
  cases vs with
  | nil => exact ⟨c, t, by rw [printItems, hv], h1, h2, h3⟩
  | cons v2 vs2 =>
    refine ⟨c, t ++ ',' :: printItems (v2 :: vs2), ?_, h1, h2, h3⟩
    rw [printItems, hv, List.cons_append]
    simp

theorem printMembers_cons_head (mb : String × JVal) (ms : List (String × JVal)) :
    ∃ t, printMembers (mb :: ms) = '"' :: t := by
  rcases mb with ⟨k, v⟩
  cases ms with
  | nil => exact ⟨_, rfl⟩
  | cons mb2 ms2 => exact ⟨_, rfl⟩

theorem needV_pos (v : JVal) : 1 ≤ needV v := by
  cases v with
  | jarr l => cases l <;> simp [needV]
  | jobj l => cases l <;> simp [needV]
  | jnull => simp [needV]
  | jbool b => simp [needV]
  | jnum n => simp [needV]
  | jstr s => simp [needV]

theorem needItems_pos (vs : List JVal) : 1 ≤ needItems vs := by
  cases vs with
  | nil => simp [needItems]
  | cons v vs =>
    simp [needItems]
    omega

theorem needMembers_pos (ms : List (String × JVal)) : 1 ≤ needMembers ms := by
  cases ms with
  | nil => simp [needMembers]
  | cons mb ms =>
    rcases mb with ⟨k, v⟩
    simp [needMembers]
    omega

mutual

theorem needV_le : ∀ v : JVal, needV v ≤ 2 * (printV v).length
  | JVal.jnull => by decide
  | JVal.jbool true => by decide
  | JVal.jbool false => by decide
  | JVal.jnum n => by
    have h := printNat_head n.natAbs
    obtain ⟨d, t, ht, _⟩ := h
    have h1 : 1 ≤ (printInt n).length := by
      rw [printInt]
      split_ifs
      · simp
      · rw [ht]; simp
    have h2 : needV (JVal.jnum n) = 1 := rfl
    have h3 : printV (JVal.jnum n) = printInt n := rfl
    rw [h2, h3]
    omega
  | JVal.jstr s => by
    have h2 : needV (JVal.jstr s) = 1 := rfl
    have h3 : (printV (JVal.jstr s)).length = (escStr s.data).length + 2 := by
      rw [show printV (JVal.jstr s) = '"' :: escStr s.data ++ ['"'] from rfl]
      simp
    rw [h2, h3]
    omega
  | JVal.jarr [] => by decide
  | JVal.jarr (v :: vs) => by
    have h := needItems_le (v :: vs)
    have h2 : needV (JVal.jarr (v :: vs)) = 1 + needItems (v :: vs) := rfl
    have h3 : (printV (JVal.jarr (v :: vs))).length = (printItems (v :: vs)).length + 2 := by
      rw [show printV (JVal.jarr (v :: vs)) = '[' :: printItems (v :: vs) ++ [']'] from rfl]
      simp
    rw [h2, h3]
    omega
  | JVal.jobj [] => by decide
  | JVal.jobj (mb :: ms) => by
    have h := needMembers_le (mb :: ms)
    have h2 : needV (JVal.jobj (mb :: ms)) = 1 + needMembers (mb :: ms) := rfl
    have h3 : (printV (JVal.jobj (mb :: ms))).length =
        (printMembers (mb :: ms)).length + 2 := by
      rw [show printV (JVal.jobj (mb :: ms)) = '\x7b' :: printMembers (mb :: ms) ++ ['\x7d']
        from rfl]
      simp
    rw [h2, h3]
    omega

theorem needItems_le : ∀ vs : List JVal, needItems vs ≤ 2 * (printItems vs).length + 2
  | [] => by decide
  | [v] => by
    have h := needV_le v
    have h2 : needItems [v] = 1 + needV v + 1 := rfl
    have h3 : printItems [v] = printV v := by rw [printItems]
    rw [h2, h3]
    omega
  | v :: v2 :: vs => by
    have h := needV_le v
    have hi := needItems_le (v2 :: vs)
    have h2 : needItems (v :: v2 :: vs) = 1 + needV v + needItems (v2 :: vs) := rfl
    have h3 : (printItems (v :: v2 :: vs)).length =
        (printV v).length + 1 + (printItems (v2 :: vs)).length := by
      rw [show printItems (v :: v2 :: vs) = printV v ++ ',' :: printItems (v2 :: vs)
        from by rw [printItems]; simp]
      simp
      omega
    rw [h2, h3]
    omega

theorem needMembers_le : ∀ ms : List (String × JVal),
    needMembers ms ≤ 2 * (printMembers ms).length + 2
  | [] => by decide
  | [(k, v)] => by
    have h := needV_le v
    have h2 : needMembers [(k, v)] = 1 + needV v + 1 := rfl
    have h3 : (printMembers [(k, v)]).length =
        (escStr k.data).length + 3 + (printV v).length := by
      rw [show printMembers [(k, v)] = '"' :: escStr k.data ++ '"' :: ':' :: printV v
        from by rw [printMembers]]
      simp
      omega
    rw [h2, h3]
    omega
  | (k, v) :: mb2 :: ms => by
    have h := needV_le v
    have hi := needMembers_le (mb2 :: ms)
    have h2 : needMembers ((k, v) :: mb2 :: ms) = 1 + needV v + needMembers (mb2 :: ms) := rfl
    have h3 : (printMembers ((k, v) :: mb2 :: ms)).length =
        (escStr k.data).length + 4 + (printV v).length + (printMembers (mb2 :: ms)).length := by
      rw [show printMembers ((k, v) :: mb2 :: ms) =
          ('"' :: escStr k.data ++ '"' :: ':' :: printV v) ++ ',' :: printMembers (mb2 :: ms)
        from by rw [printMembers]; simp]
      simp
      omega
    rw [h2, h3]
    omega

end

theorem nodupKeys_append_not_mem {acc : List (String × JVal)} {k : String} {v : JVal}
    {ms : List (String × JVal)} (h : nodupKeys (acc ++ (k, v) :: ms) = true) :
    keyMem k acc = false := by
  induction acc with
  | nil => rfl
  | cons p rest ih =>
    rcases p with ⟨k0, v0⟩
    have h2 : (!keyMem k0 (rest ++ (k, v) :: ms) && nodupKeys (rest ++ (k, v) :: ms)) = true := h
    rw [Bool.and_eq_true, Bool.not_eq_true', keyMem_append, Bool.or_eq_false_iff] at h2
    obtain ⟨⟨hnr, hnc⟩, hrest⟩ := h2
    have hkk : (decide (k = k0) || keyMem k0 ms) = false := hnc
    rw [Bool.or_eq_false_iff] at hkk
    have hne : ¬(k0 = k) := by
      intro he
      rw [he] at hkk
      simp at hkk
    show (decide (k0 = k) || keyMem k rest) = false
    rw [ih hrest]
    simp [hne]

theorem parse_print_all (fuel : Nat) :
    (∀ v rest, wfJ v = true → needV v ≤ fuel → noDigitHead rest = true →
      parseV fuel (printV v ++ rest) = some (v, rest)) ∧
    (∀ vs acc rest, vs ≠ [] → wfArr vs = true → needItems vs ≤ fuel →
      parseItems fuel (printItems vs ++ ']' :: rest) acc =
        some (JVal.jarr (acc ++ vs), rest)) ∧
    (∀ ms acc rest, ms ≠ [] → wfObj ms = true → nodupKeys (acc ++ ms) = true →
      needMembers ms ≤ fuel →
      parseMembers fuel (printMembers ms ++ '\x7d' :: rest) acc =
        some (JVal.jobj (acc ++ ms), rest)) := by
  induction fuel with
  | zero =>
    refine ⟨?_, ?_, ?_⟩
    · intro v rest _ hfuel _
      have := needV_pos v
      omega
    · intro vs acc rest _ _ hfuel
      have := needItems_pos vs
      omega
    · intro ms acc rest _ _ _ hfuel
      have := needMembers_pos ms
      omega
  | succ fuel ih =>
    refine ⟨?_, ?_, ?_⟩
    · intro v rest hwf hfuel hrest
      cases v with
      | jnull => rfl
      | jbool b => cases b <;> rfl
      | jstr s =>
        have hsplit : printV (JVal.jstr s) ++ rest = '"' :: (escStr s.data ++ '"' :: rest) := by
          rw [show printV (JVal.jstr s) = '"' :: escStr s.data ++ ['"'] from rfl]
          simp
        rw [hsplit, parseV, skipWs_cons '"' _ (by decide)]
        dsimp only
        rw [if_neg (show ¬('"' = '\x7b') by decide), if_neg (show ¬('"' = '[') by decide),
          if_pos rfl, parseStringBody_escStr]
      | jnum n =>
        by_cases hneg : n < 0
        · obtain ⟨ds, hpn, hlt, hne, hval⟩ := printNat_digits n.natAbs
          have hsplit : printV (JVal.jnum n) ++ rest =
              '-' :: (List.map Nat.digitChar ds ++ rest) := by
            rw [show printV (JVal.jnum n) = printInt n from rfl, printInt, if_pos hneg, hpn]
            simp
          rw [hsplit, parseV, skipWs_cons '-' _ (by decide)]
          dsimp only
          rw [if_neg (show ¬('-' = '\x7b') by decide), if_neg (show ¬('-' = '[') by decide),
            if_neg (show ¬('-' = '"') by decide), if_neg (show ¬('-' = 't') by decide),
            if_neg (show ¬('-' = 'f') by decide), if_neg (show ¬('-' = 'n') by decide),
            if_pos rfl, takeDigits_digits ds hlt rest hrest]
          cases ds with
          | nil => exact absurd rfl hne
          | cons d0 ds2 =>
            dsimp only
            rw [hval]
            have hcast : -((n.natAbs : Nat) : Int) = n := by omega
            rw [hcast]
        · obtain ⟨ds, hpn, hlt, hne, hval⟩ := printNat_digits n.natAbs
          cases ds with
          | nil => exact absurd rfl hne
          | cons d0 ds2 =>
            obtain ⟨hdig, hws, hq1, hq2, hq3, hq4, hq5, hq6, hq7, _, _, _⟩ :=
              digitChar_ok d0 (hlt d0 (List.mem_cons_self _ _))
            have hsplit : printV (JVal.jnum n) ++ rest =
                Nat.digitChar d0 :: (List.map Nat.digitChar ds2 ++ rest) := by
              rw [show printV (JVal.jnum n) = printInt n from rfl, printInt, if_neg hneg, hpn]
              simp
            rw [hsplit, parseV, skipWs_cons _ _ hws]
            dsimp only
            rw [if_neg hq1, if_neg hq2, if_neg hq3, if_neg hq4, if_neg hq5, if_neg hq6,
              if_neg hq7, if_pos hdig]
            rw [show Nat.digitChar d0 :: (List.map Nat.digitChar ds2 ++ rest) =
                List.map Nat.digitChar (d0 :: ds2) ++ rest from rfl]
            rw [takeDigits_digits (d0 :: ds2) hlt rest hrest]
            dsimp only
            rw [hval]
            have hcast : ((n.natAbs : Nat) : Int) = n := by omega
            rw [hcast]
      | jarr l =>
        cases l with
        | nil => rfl
        | cons v vs =>
          have hwfA : wfArr (v :: vs) = true := hwf
          have hfuel2 : needItems (v :: vs) ≤ fuel := by
            have h2 : 1 + needItems (v :: vs) ≤ fuel + 1 := hfuel
            omega
          obtain ⟨c0, t0, hpi, hws0, hne0, _⟩ := printItems_cons_head v vs
          have hsplit : printV (JVal.jarr (v :: vs)) ++ rest =
              '[' :: (printItems (v :: vs) ++ ']' :: rest) := by
            rw [show printV (JVal.jarr (v :: vs)) =
              '[' :: printItems (v :: vs) ++ [']'] from rfl]
            simp
          rw [hsplit, parseV, skipWs_cons '[' _ (by decide)]
          dsimp only
          rw [if_neg (show ¬('[' = '\x7b') by decide), if_pos rfl]
          rw [hpi, List.cons_append, skipWs_cons c0 _ hws0]
          split
          · rename_i r heq
            injection heq with hc00 hr0
            exact absurd hc00 hne0
          · rw [← List.cons_append, ← hpi]
            exact ih.2.1 (v :: vs) [] rest (by simp) hwfA hfuel2
      | jobj l =>
        cases l with
        | nil => rfl
        | cons mb ms =>
          have hsp : (nodupKeys (mb :: ms) && wfObj (mb :: ms)) = true := hwf
          rw [Bool.and_eq_true] at hsp
          have hfuel2 : needMembers (mb :: ms) ≤ fuel := by
            have h2 : 1 + needMembers (mb :: ms) ≤ fuel + 1 := hfuel
            omega
          obtain ⟨t0, hpm⟩ := printMembers_cons_head mb ms
          have hsplit : printV (JVal.jobj (mb :: ms)) ++ rest =
              '\x7b' :: (printMembers (mb :: ms) ++ '\x7d' :: rest) := by
            rw [show printV (JVal.jobj (mb :: ms)) =
              '\x7b' :: printMembers (mb :: ms) ++ ['\x7d'] from rfl]
            simp
          rw [hsplit, parseV, skipWs_cons '\x7b' _ (by decide)]
          dsimp only
          rw [if_pos rfl]
          rw [hpm, List.cons_append, skipWs_cons '"' _ (by decide)]
          split
          · rename_i r heq
            injection heq with hc00 hr0
            exact absurd hc00 (by decide)
          · rw [← List.cons_append, ← hpm]
            exact ih.2.2 (mb :: ms) [] rest (by simp) hsp.2 hsp.1 hfuel2
    · intro vs acc rest hvs hwfA hfuel
      cases vs with
      | nil => exact absurd rfl hvs
      | cons v vs2 =>
        have hsp : (wfJ v && wfArr vs2) = true := hwfA
        rw [Bool.and_eq_true] at hsp
        cases vs2 with
        | nil =>
          have hfv : needV v ≤ fuel := by
            have h2 : 1 + needV v + 1 ≤ fuel + 1 := hfuel
            omega
          rw [parseItems]
          rw [show printItems [v] = printV v from by rw [printItems]]
          rw [ih.1 v (']' :: rest) hsp.1 hfv rfl]
          dsimp only
          rw [skipWs_cons ']' _ (by decide)]
          rfl
        | cons v2 vs3 =>
          have hfv : needV v ≤ fuel := by
            have h2 : 1 + needV v + needItems (v2 :: vs3) ≤ fuel + 1 := hfuel
            have h3 := needItems_pos (v2 :: vs3)
            omega
          have hfi : needItems (v2 :: vs3) ≤ fuel := by
            have h2 : 1 + needV v + needItems (v2 :: vs3) ≤ fuel + 1 := hfuel
            have h3 := needV_pos v
            omega
          rw [parseItems]
          have hsplit : printItems (v :: v2 :: vs3) ++ ']' :: rest =
              printV v ++ (',' :: (printItems (v2 :: vs3) ++ ']' :: rest)) := by
            rw [show printItems (v :: v2 :: vs3) =
              printV v ++ ',' :: printItems (v2 :: vs3) from by rw [printItems]; simp]
            simp
          rw [hsplit,
            ih.1 v (',' :: (printItems (v2 :: vs3) ++ ']' :: rest)) hsp.1 hfv rfl]
          dsimp only
          rw [skipWs_cons ',' _ (by decide)]
          split
          · rename_i r heq
            injection heq with hc00 hr0
            subst hr0
            rw [ih.2.1 (v2 :: vs3) (acc ++ [v]) rest (by simp) hsp.2 hfi, List.append_assoc]
            rfl
          · rename_i r heq
            injection heq with hc00 hr0
            exact absurd hc00 (by decide)
          · rename_i hne1 hne2
            exact absurd rfl (hne1 (printItems (v2 :: vs3) ++ ']' :: rest))
    · intro ms acc rest hms hwfO hnd hfuel
      cases ms with
      | nil => exact absurd rfl hms
      | cons mb ms2 =>
        rcases mb with ⟨k, v⟩
        have hsp : (wfJ v && wfObj ms2) = true := hwfO
        rw [Bool.and_eq_true] at hsp
        have hkm : keyMem k acc = false := nodupKeys_append_not_mem hnd
        cases ms2 with
        | nil =>
          have hfv : needV v ≤ fuel := by
            have h2 : 1 + needV v + 1 ≤ fuel + 1 := hfuel
            omega
          have hsplit : printMembers [(k, v)] ++ '\x7d' :: rest =
              '"' :: (escStr k.data ++ '"' :: ':' :: (printV v ++ '\x7d' :: rest)) := by
            rw [show printMembers [(k, v)] = '"' :: escStr k.data ++ '"' :: ':' :: printV v
              from by rw [printMembers]]
            simp
          rw [hsplit, parseMembers]
          rw [parseStringBody_escStr]
          dsimp only
          rw [skipWs_cons ':' _ (by decide)]
          split
          · rename_i r3 heq
            injection heq with hc0 hr0
            subst hr0
            rw [ih.1 v ('\x7d' :: rest) hsp.1 hfv rfl]
            dsimp only
            rw [skipWs_cons '\x7d' _ (by decide)]
            split
            · rename_i r5 heq2
              injection heq2 with hc2 hr2
              exact absurd hc2 (by decide)
            · rename_i r5 heq2
              injection heq2 with hc2 hr2
              subst hr2
              rw [setKey_of_not_mem acc (String.mk k.data) v hkm]
            · rename_i hne1 hne2
              exact absurd rfl (hne2 rest)
          · rename_i hne0
            exact absurd rfl (hne0 (printV v ++ '\x7d' :: rest))
        | cons mb2 ms3 =>
          have hfv : needV v ≤ fuel := by
            have h2 : 1 + needV v + needMembers (mb2 :: ms3) ≤ fuel + 1 := hfuel
            have h3 := needMembers_pos (mb2 :: ms3)
            omega
          have hfm : needMembers (mb2 :: ms3) ≤ fuel := by
            have h2 : 1 + needV v + needMembers (mb2 :: ms3) ≤ fuel + 1 := hfuel
            have h3 := needV_pos v
            omega
          have hsplit : printMembers ((k, v) :: mb2 :: ms3) ++ '\x7d' :: rest =
              '"' :: (escStr k.data ++ '"' :: ':' :: (printV v ++
                ',' :: (printMembers (mb2 :: ms3) ++ '\x7d' :: rest))) := by
            rw [show printMembers ((k, v) :: mb2 :: ms3) =
                ('"' :: escStr k.data ++ '"' :: ':' :: printV v) ++
                  ',' :: printMembers (mb2 :: ms3) from by rw [printMembers]; simp]
            simp
          rw [hsplit, parseMembers]
          rw [parseStringBody_escStr]
          dsimp only
          rw [skipWs_cons ':' _ (by decide)]
          split
          · rename_i r3 heq
            injection heq with hc0 hr0
            subst hr0
            rw [ih.1 v (',' :: (printMembers (mb2 :: ms3) ++ '\x7d' :: rest)) hsp.1 hfv rfl]
            dsimp only
            rw [skipWs_cons ',' _ (by decide)]
            split
            · rename_i r5 heq2
              injection heq2 with hc2 hr2
              subst hr2
              obtain ⟨t0, hpm⟩ := printMembers_cons_head mb2 ms3
              rw [hpm, List.cons_append, skipWs_cons '"' _ (by decide), ← List.cons_append,
                ← hpm]
              rw [setKey_of_not_mem acc (String.mk k.data) v hkm]
              have hnd2 : nodupKeys ((acc ++ [(String.mk k.data, v)]) ++ mb2 :: ms3) = true := by
                rw [List.append_assoc]
                exact hnd
              rw [ih.2.2 (mb2 :: ms3) (acc ++ [(String.mk k.data, v)]) rest (by simp)
                hsp.2 hnd2 hfm]
              rw [List.append_assoc]
              rfl
            · rename_i r5 heq2
              injection heq2 with hc2 hr2
              exact absurd hc2 (by decide)
            · rename_i hne1 hne2
              exact absurd rfl (hne1 (printMembers (mb2 :: ms3) ++ '\x7d' :: rest))
          · rename_i hne0
            exact absurd rfl (hne0 (printV v ++ ',' :: (printMembers (mb2 :: ms3) ++
              '\x7d' :: rest)))

theorem json_loads_print (v : JVal) (hwf : wfJ v = true) :
    json_loads_chars (printV v) = some v := by
  unfold json_loads_chars
  have hb : needV v ≤ 2 * (printV v).length + 2 := by
    have h2 := needV_le v
    omega
  have hp := (parse_print_all (2 * (printV v).length + 2)).1 v [] hwf hb rfl
  rw [List.append_nil] at hp
  rw [hp]
  rfl

theorem pyStrip_printed_obj (mid : List Char) :
    pyStrip ('\x7b' :: (mid ++ ['\x7d'])) = '\x7b' :: (mid ++ ['\x7d']) := by
  simp [pyStrip, List.dropWhile_cons, show isPyWs '\x7b' = false from rfl,
    show isPyWs '\x7d' = false from rfl]

theorem endsWith_printed_obj (mid : List Char) :
    endsWithChars "```".data ('\x7b' :: (mid ++ ['\x7d'])) = false := by
  have hrev : ('\x7b' :: (mid ++ ['\x7d'])).reverse = '\x7d' :: (mid.reverse ++ ['\x7b']) := by
    simp
  show startsWithChars "```".data.reverse ('\x7b' :: (mid ++ ['\x7d'])).reverse = false
  rw [hrev]
  rfl

theorem cleanReply_printed_obj (mid : List Char) :
    cleanReply ('\x7b' :: (mid ++ ['\x7d'])) = '\x7b' :: (mid ++ ['\x7d']) := by
  unfold cleanReply
  rw [pyStrip_printed_obj]
  dsimp only
  rw [show startsWithChars "```json".data ('\x7b' :: (mid ++ ['\x7d'])) = false from rfl]
  simp only [Bool.false_eq_true, if_false]
  rw [endsWith_printed_obj]
  simp only [Bool.false_eq_true, if_false]

/-! ## Shape of the normalizer's output -/

theorem normalizeDecoded_obj_eq (d : List (String × JVal)) :
    normalizeDecoded (JVal.jobj d) =
      (filtersStep d).bind (fun f1 => (rootPriceStep d f1).bind (fun f2 =>
        some (f2 ++ truthyField d "view_mode" ++ truthyField d "sort_by" ++
          truthyField d "group_by" ++ closeTabsField d ++ responseMessageField d ++
          truthyField d "generalResponse"))) := rfl

theorem truthyField_eq_optEntry (d : List (String × JVal)) (k : String) :
    truthyField d k = optEntry k (truthyOptField d k) := by
  unfold truthyField truthyOptField
  cases lookupKey d k with
  | none => rfl
  | some v => by_cases h : truthy v = true <;> simp [h, optEntry]

theorem truthyOptField_spec (d : List (String × JVal)) (k : String)
    (hwf : wfObj d = true) : OptTruthyWf (truthyOptField d k) := by
  intro v hv
  unfold truthyOptField at hv
  cases hl : lookupKey d k with
  | none => rw [hl] at hv; simp at hv
  | some u =>
    rw [hl] at hv
    dsimp only at hv
    split_ifs at hv with ht
    · injection hv with hv
      subst hv
      exact ⟨ht, wf_lookup hwf hl⟩

theorem closeTabsField_eq (d : List (String × JVal)) :
    closeTabsField d = optEntry "closeTabs" (closeTabsOpt d) := by
  unfold closeTabsField closeTabsOpt
  cases lookupKey d "closeTabs" with
  | none => rfl
  | some v => by_cases h : truthy v = true <;> simp [h, optEntry]

theorem closeTabsOpt_spec (d : List (String × JVal)) : OptClose (closeTabsOpt d) := by
  intro v hv
  unfold closeTabsOpt at hv
  cases hl : lookupKey d "closeTabs" with
  | none => rw [hl] at hv; simp at hv
  | some u =>
    rw [hl] at hv
    dsimp only at hv
    split_ifs at hv
    · injection hv with hv
      exact hv.symm

theorem respMsgVal_wf (d : List (String × JVal)) (hwf : wfObj d = true) :
    wfJ (respMsgVal d) = true := by
  unfold respMsgVal
  cases hl : lookupKey d "response_message" with
  | none => rfl
  | some v => simpa using wf_lookup hwf hl

theorem responseMessageField_eq (d : List (String × JVal)) :
    responseMessageField d = [("response_message", respMsgVal d)] := rfl

theorem timeRangeField_shape (fd : List (String × JVal)) (tr : List (String × JVal))
    (hwf : wfObj fd = true) (h : timeRangeField fd = some tr) :
    ∃ t, tr = optEntry "timeRange" t ∧ OptTRWf t := by
  unfold timeRangeField at h
  cases hl : lookupKey fd "timeRange" with
  | none =>
    rw [hl] at h
    injection h with h
    exact ⟨none, h.symm, by intro v hv; simp at hv⟩
  | some tv =>
    rw [hl] at h
    dsimp only at h
    split_ifs at h with ht
    swap
    · injection h with h
      exact ⟨none, h.symm, by intro v hv; simp at hv⟩
    cases tv with
    | jobj td =>
      dsimp only at h
      split_ifs at h with ha
      · injection h with h
        refine ⟨some (JVal.jobj td), h.symm, ?_⟩
        intro v hv
        injection hv with hv
        subst hv
        exact ⟨ht, wf_lookup hwf hl, td, rfl, ha⟩
      · injection h with h
        exact ⟨none, h.symm, by intro v hv; simp at hv⟩
    | jnull =>
      dsimp only at h
      exact absurd h (by simp)
    | jbool b =>
      dsimp only at h
      exact absurd h (by simp)
    | jnum n =>
      dsimp only at h
      exact absurd h (by simp)
    | jstr s =>
      dsimp only at h
      exact absurd h (by simp)
    | jarr l =>
      dsimp only at h
      exact absurd h (by simp)

theorem priceField_shape (fd : List (String × JVal)) (pr : List (String × JVal))
    (hwf : wfObj fd = true) (h : priceField fd = some pr) :
    ∃ p, pr = optEntry "price" p ∧ OptPriceWf p := by
  unfold priceField at h
  cases hl : lookupKey fd "price" with
  | none =>
    rw [hl] at h
    injection h with h
    exact ⟨none, h.symm, by intro v hv; simp at hv⟩
  | some pv =>
    rw [hl] at h
    dsimp only at h
    split_ifs at h with ht
    swap
    · injection h with h
      exact ⟨none, h.symm, by intro v hv; simp at hv⟩
    cases pv with
    | jobj pd =>
      dsimp only at h
      split_ifs at h with ha
      · injection h with h
        refine ⟨some (JVal.jobj pd), h.symm, ?_⟩
        intro v hv
        injection hv with hv
        subst hv
        exact ⟨wf_lookup hwf hl, pd, rfl, ha⟩
      · injection h with h
        exact ⟨none, h.symm, by intro v hv; simp at hv⟩
    | jnull =>
      dsimp only at h
      exact absurd h (by simp)
    | jbool b =>
      dsimp only at h
      exact absurd h (by simp)
    | jnum n =>
      dsimp only at h
      exact absurd h (by simp)
    | jstr s =>
      dsimp only at h
      exact absurd h (by simp)
    | jarr l =>
      dsimp only at h
      exact absurd h (by simp)

theorem truthy_jobj_of_ne_nil {l : List (String × JVal)} (h : l ≠ []) :
    truthy (JVal.jobj l) = true := by
  cases l with
  | nil => exact absurd rfl h
  | cons p rest => rfl

theorem filtersStep_shape (d : List (String × JVal)) (f1 : List (String × JVal))
    (hwf : wfObj d = true) (h : filtersStep d = some f1) :
    ∃ fopt, f1 = optEntry "filters" fopt ∧ FOpt fopt := by
  unfold filtersStep at h
  cases hl : lookupKey d "filters" with
  | none =>
    rw [hl] at h
    injection h with h
    exact ⟨none, h.symm, by intro v hv; simp at hv⟩
  | some fv =>
    rw [hl] at h
    dsimp only at h
    split_ifs at h with ht
    swap
    · injection h with h
      exact ⟨none, h.symm, by intro v hv; simp at hv⟩
    cases fv with
    | jobj fd =>
      have hwf2 : wfObj fd = true := wfObj_of_wfJ_obj (wf_lookup hwf hl)
      simp only [Option.bind_eq_bind] at h
      rw [Option.bind_eq_some] at h
      obtain ⟨tr, htr, h⟩ := h
      rw [Option.bind_eq_some] at h
      obtain ⟨pr, hpr, h⟩ := h
      obtain ⟨t, rfl, hT⟩ := timeRangeField_shape fd tr hwf2 htr
      obtain ⟨p, rfl, hP⟩ := priceField_shape fd pr hwf2 hpr
      rw [truthyField_eq_optEntry, truthyField_eq_optEntry, truthyField_eq_optEntry,
        truthyField_eq_optEntry] at h
      injection h with h
      split_ifs at h with he
      · exact ⟨none, h.symm, by intro v hv; simp at hv⟩
      · refine ⟨some (JVal.jobj (filtAssemble (truthyOptField fd "categories")
          (truthyOptField fd "stores") (truthyOptField fd "lists") t
          (truthyOptField fd "clearAll") p)), h.symm, ?_⟩
        intro v hv
        injection hv with hv
        subst hv
        refine ⟨_, rfl, ?_, ?_⟩
        · intro hnil
          exact he (List.isEmpty_iff.2 hnil)
        · exact ⟨_, _, _, _, _, _, rfl, truthyOptField_spec fd _ hwf2,
            truthyOptField_spec fd _ hwf2, truthyOptField_spec fd _ hwf2, hT,
            truthyOptField_spec fd _ hwf2, hP⟩
    | jnull =>
      dsimp only at h
      exact absurd h (by simp)
    | jbool b =>
      dsimp only at h
      exact absurd h (by simp)
    | jnum n =>
      dsimp only at h
      exact absurd h (by simp)
    | jstr s =>
      dsimp only at h
      exact absurd h (by simp)
    | jarr l =>
      dsimp only at h
      exact absurd h (by simp)

theorem rootPriceStep_shape (d f1 f2 : List (String × JVal)) (fopt : Option JVal)
    (hwf : wfObj d = true) (hs : f1 = optEntry "filters" fopt) (hF : FOpt fopt)
    (h : rootPriceStep d f1 = some f2) :
    ∃ fopt2, f2 = optEntry "filters" fopt2 ∧ FOpt fopt2 := by
  unfold rootPriceStep at h
  cases hl : lookupKey d "price" with
  | none =>
    rw [hl] at h
    injection h with h
    exact ⟨fopt, by rw [← h, hs], hF⟩
  | some pv =>
    rw [hl] at h
    cases pv with
    | jobj pd =>
      dsimp only at h
      split_ifs at h with hnn
      swap
      · injection h with h
        exact ⟨fopt, by rw [← h, hs], hF⟩
      injection h with h
      subst hs
      have hwfpd : wfJ (JVal.jobj pd) = true := wf_lookup hwf hl
      have hlf : lookupKey (optEntry "filters" fopt) "filters" = fopt := by
        cases fopt <;> rfl
      rw [hlf] at h
      cases fopt with
      | none =>
        dsimp only at h
        refine ⟨some (JVal.jobj [("price", JVal.jobj pd)]), by rw [← h]; rfl, ?_⟩
        intro v hv
        injection hv with hv
        subst hv
        refine ⟨[("price", JVal.jobj pd)], rfl, by simp, ?_⟩
        refine ⟨none, none, none, none, none, some (JVal.jobj pd), rfl,
          ?_, ?_, ?_, ?_, ?_, ?_⟩
        · intro v hv; simp at hv
        · intro v hv; simp at hv
        · intro v hv; simp at hv
        · intro v hv; simp at hv
        · intro v hv; simp at hv
        · intro v hv
          injection hv with hv
          subst hv
          exact ⟨hwfpd, pd, rfl, hnn⟩
      | some v0 =>
        obtain ⟨ff, rfl, hne, c, s, li, t, a, p, rfl, hc, hs2, hli, ht2, ha2, hp2⟩ :=
          hF v0 rfl
        dsimp only at h
        rw [setKey_optEntry_filters, setKey_filtAssemble_price] at h
        refine ⟨some (JVal.jobj (filtAssemble c s li t a (some (JVal.jobj pd)))),
          by rw [← h]; rfl, ?_⟩
        intro v hv
        injection hv with hv
        subst hv
        refine ⟨_, rfl, filtAssemble_ne_nil _ _ _ _ _ _, ?_⟩
        refine ⟨c, s, li, t, a, some (JVal.jobj pd), rfl, hc, hs2, hli, ht2, ha2, ?_⟩
        intro v hv
        injection hv with hv
        subst hv
        exact ⟨hwfpd, pd, rfl, hnn⟩
    | jnull =>
      dsimp only at h
      exact absurd h (by simp)
    | jbool b =>
      dsimp only at h
      exact absurd h (by simp)
    | jnum n =>
      dsimp only at h
      exact absurd h (by simp)
    | jstr s =>
      dsimp only at h
      exact absurd h (by simp)
    | jarr l =>
      dsimp only at h
      exact absurd h (by simp)

theorem normalizeDecoded_shape (d m : List (String × JVal))
    (hwf : wfJ (JVal.jobj d) = true) (h : normalizeDecoded (JVal.jobj d) = some m) :
    ∃ fopt, FOpt fopt ∧
      m = normAssemble fopt (truthyOptField d "view_mode") (truthyOptField d "sort_by")
        (truthyOptField d "group_by") (closeTabsOpt d) (respMsgVal d)
        (truthyOptField d "generalResponse") := by
  have hwfo : wfObj d = true := wfObj_of_wfJ_obj hwf
  rw [normalizeDecoded_obj_eq] at h
  simp only [Option.bind_eq_some] at h
  rcases h with ⟨f1, hf1, f2, hf2, h⟩
  injection h with h
  obtain ⟨fopt, hs1, hF1⟩ := filtersStep_shape d f1 hwfo hf1
  obtain ⟨fopt2, hs2, hF2⟩ := rootPriceStep_shape d f1 f2 fopt hwfo hs1 hF1 hf2
  refine ⟨fopt2, hF2, ?_⟩
  rw [← h, hs2]
  rw [truthyField_eq_optEntry, truthyField_eq_optEntry, truthyField_eq_optEntry,
    truthyField_eq_optEntry, closeTabsField_eq, responseMessageField_eq]
  rfl

/-! ## Renormalization: the normalizer fixes its own outputs -/

theorem truthyField_renorm (d : List (String × JVal)) (k : String) (o : Option JVal)
    (ho : OptTruthyWf o) (hl : lookupKey d k = o) :
    truthyField d k = optEntry k o := by
  unfold truthyField
  rw [hl]
  cases o with
  | none => rfl
  | some v =>
    dsimp only
    rw [if_pos (ho v rfl).1]
    rfl

theorem closeTabsField_renorm (d : List (String × JVal)) (o : Option JVal)
    (ho : OptClose o) (hl : lookupKey d "closeTabs" = o) :
    closeTabsField d = optEntry "closeTabs" o := by
  unfold closeTabsField
  rw [hl]
  cases o with
  | none => rfl
  | some v =>
    rw [ho v rfl]
    rfl

theorem responseMessageField_renorm (d : List (String × JVal)) (rv : JVal)
    (hl : lookupKey d "response_message" = some rv) :
    responseMessageField d = [("response_message", rv)] := by
  unfold responseMessageField
  rw [hl]
  rfl

theorem timeRangeField_renorm (fd : List (String × JVal)) (o : Option JVal)
    (ho : OptTRWf o) (hl : lookupKey fd "timeRange" = o) :
    timeRangeField fd = some (optEntry "timeRange" o) := by
  unfold timeRangeField
  rw [hl]
  cases o with
  | none => rfl
  | some v =>
    obtain ⟨htr, hwf, td, hv, hany⟩ := ho v rfl
    subst hv
    dsimp only
    rw [if_pos htr]
    rw [if_pos hany]
    rfl

theorem priceField_renorm (fd : List (String × JVal)) (o : Option JVal)
    (ho : OptPriceWf o) (hl : lookupKey fd "price" = o) :
    priceField fd = some (optEntry "price" o) := by
  unfold priceField
  rw [hl]
  cases o with
  | none => rfl
  | some v =>
    obtain ⟨hwf, pd, hv, hnn⟩ := ho v rfl
    subst hv
    have htr : truthy (JVal.jobj pd) = true := by
      have h2 : hasNonNull pd "min" = true ∨ hasNonNull pd "max" = true := by
        simpa using hnn
      rcases h2 with h | h <;> exact hasNonNull_truthy h
    dsimp only
    rw [if_pos htr]
    rw [if_pos hnn]
    rfl

theorem filtersStep_renorm (m : List (String × JVal)) (fopt : Option JVal)
    (hF : FOpt fopt) (hl : lookupKey m "filters" = fopt) :
    filtersStep m = some (optEntry "filters" fopt) := by
  unfold filtersStep
  rw [hl]
  cases fopt with
  | none => rfl
  | some fv =>
    obtain ⟨ff, hv, hne, hFC⟩ := hF fv rfl
    subst hv
    dsimp only
    rw [if_pos (truthy_jobj_of_ne_nil hne)]
    obtain ⟨c, s1, li, t, a, p, hffEq, hc, hs1, hli, ht, ha, hp⟩ := hFC
    have hlk := lookup_filtAssemble c s1 li t a p
    simp only [Option.bind_eq_bind]
    rw [timeRangeField_renorm ff t ht (by rw [hffEq]; exact hlk.2.2.2.1)]
    dsimp only [Option.bind]
    rw [priceField_renorm ff p hp (by rw [hffEq]; exact hlk.2.2.2.2.2)]
    dsimp only [Option.bind]
    rw [truthyField_renorm ff "categories" c hc (by rw [hffEq]; exact hlk.1),
      truthyField_renorm ff "stores" s1 hs1 (by rw [hffEq]; exact hlk.2.1),
      truthyField_renorm ff "lists" li hli (by rw [hffEq]; exact hlk.2.2.1),
      truthyField_renorm ff "clearAll" a ha (by rw [hffEq]; exact hlk.2.2.2.2.1)]
    rw [show optEntry "categories" c ++ optEntry "stores" s1 ++ optEntry "lists" li ++
        optEntry "timeRange" t ++ optEntry "clearAll" a ++ optEntry "price" p =
      filtAssemble c s1 li t a p from rfl, ← hffEq]
    rw [if_neg (show ¬(ff.isEmpty = true) from fun h => hne (List.isEmpty_iff.1 h))]
    rfl

theorem rootPriceStep_renorm (m f1 : List (String × JVal))
    (hl : lookupKey m "price" = none) :
    rootPriceStep m f1 = some f1 := by
  unfold rootPriceStep
  rw [hl]

theorem normalizeDecoded_renorm (fopt vm sb gb ct : Option JVal) (rv : JVal)
    (gr : Option JVal) (hF : FOpt fopt) (hvm : OptTruthyWf vm) (hsb : OptTruthyWf sb)
    (hgb : OptTruthyWf gb) (hct : OptClose ct) (hgr : OptTruthyWf gr) :
    normalizeDecoded (JVal.jobj (normAssemble fopt vm sb gb ct rv gr)) =
      some (normAssemble fopt vm sb gb ct rv gr) := by
  have hlk := lookup_normAssemble fopt vm sb gb ct rv gr
  rw [normalizeDecoded_obj_eq]
  rw [filtersStep_renorm _ fopt hF hlk.1]
  dsimp only [Option.bind]
  rw [rootPriceStep_renorm _ _ hlk.2.2.2.2.2.2.2]
  dsimp only [Option.bind]
  rw [truthyField_renorm _ "view_mode" vm hvm hlk.2.1,
    truthyField_renorm _ "sort_by" sb hsb hlk.2.2.1,
    truthyField_renorm _ "group_by" gb hgb hlk.2.2.2.1,
    closeTabsField_renorm _ ct hct hlk.2.2.2.2.1,
    responseMessageField_renorm _ rv hlk.2.2.2.2.2.1,
    truthyField_renorm _ "generalResponse" gr hgr hlk.2.2.2.2.2.2.1]
  rfl

theorem wfObj_filtAssemble (c s li t a p : Option JVal) (hc : OptTruthyWf c)
    (hs : OptTruthyWf s) (hli : OptTruthyWf li) (ht : OptTRWf t) (ha : OptTruthyWf a)
    (hp : OptPriceWf p) : wfObj (filtAssemble c s li t a p) = true := by
  unfold filtAssemble
  rw [wfObj_append, wfObj_append, wfObj_append, wfObj_append, wfObj_append]
  simp only [Bool.and_eq_true]
  exact ⟨⟨⟨⟨⟨wfObj_optEntry _ _ (fun v hv => (hc v hv).2),
    wfObj_optEntry _ _ (fun v hv => (hs v hv).2)⟩,
    wfObj_optEntry _ _ (fun v hv => (hli v hv).2)⟩,
    wfObj_optEntry _ _ (fun v hv => (ht v hv).2.1)⟩,
    wfObj_optEntry _ _ (fun v hv => (ha v hv).2)⟩,
    wfObj_optEntry _ _ (fun v hv => (hp v hv).1)⟩

theorem normAssemble_wf (fopt vm sb gb ct : Option JVal) (rv : JVal) (gr : Option JVal)
    (hF : FOpt fopt) (hvm : OptTruthyWf vm) (hsb : OptTruthyWf sb) (hgb : OptTruthyWf gb)
    (hct : OptClose ct) (hrv : wfJ rv = true) (hgr : OptTruthyWf gr) :
    wfJ (JVal.jobj (normAssemble fopt vm sb gb ct rv gr)) = true := by
  rw [wfJ_obj_eq, nodup_normAssemble]
  simp only [Bool.true_and]
  unfold normAssemble
  rw [wfObj_append, wfObj_append, wfObj_append, wfObj_append, wfObj_append, wfObj_append]
  simp only [Bool.and_eq_true]
  refine ⟨⟨⟨⟨⟨⟨?_, ?_⟩, ?_⟩, ?_⟩, ?_⟩, ?_⟩, ?_⟩
  · refine wfObj_optEntry _ _ (fun v hv => ?_)
    obtain ⟨ff, hv2, hne, hFC⟩ := hF v hv
    subst hv2
    obtain ⟨c, s1, li, t, a, p, hffEq, hc, hs1, hli, ht, ha, hp⟩ := hFC
    rw [wfJ_obj_eq, hffEq, nodup_filtAssemble, wfObj_filtAssemble c s1 li t a p hc hs1 hli ht ha hp]
    rfl
  · exact wfObj_optEntry _ _ (fun v hv => (hvm v hv).2)
  · exact wfObj_optEntry _ _ (fun v hv => (hsb v hv).2)
  · exact wfObj_optEntry _ _ (fun v hv => (hgb v hv).2)
  · refine wfObj_optEntry _ _ (fun v hv => ?_)
    rw [hct v hv]
    rfl
  · simp [wfObj, hrv]
  · exact wfObj_optEntry _ _ (fun v hv => (hgr v hv).2)

theorem parse_llm_renorm (fopt vm sb gb ct : Option JVal) (rv : JVal) (gr : Option JVal)
    (hF : FOpt fopt) (hvm : OptTruthyWf vm) (hsb : OptTruthyWf sb) (hgb : OptTruthyWf gb)
    (hct : OptClose ct) (hrv : wfJ rv = true) (hgr : OptTruthyWf gr) :
    parse_llm_response (json_dumps (JVal.jobj (normAssemble fopt vm sb gb ct rv gr))) =
      normAssemble fopt vm sb gb ct rv gr := by
  unfold parse_llm_response
  have hform : printV (JVal.jobj (normAssemble fopt vm sb gb ct rv gr)) =
      '\x7b' :: (printMembers (normAssemble fopt vm sb gb ct rv gr) ++ ['\x7d']) := by
    rw [show printV (JVal.jobj (normAssemble fopt vm sb gb ct rv gr)) =
      '\x7b' :: printMembers (normAssemble fopt vm sb gb ct rv gr) ++ ['\x7d'] from rfl]
    simp
  rw [show (json_dumps (JVal.jobj (normAssemble fopt vm sb gb ct rv gr))).data =
    printV (JVal.jobj (normAssemble fopt vm sb gb ct rv gr)) from rfl]
  rw [hform, cleanReply_printed_obj, ← hform]
  rw [json_loads_print _ (normAssemble_wf fopt vm sb gb ct rv gr hF hvm hsb hgb hct hrv hgr)]
  dsimp only
  rw [normalizeDecoded_renorm fopt vm sb gb ct rv gr hF hvm hsb hgb hct hgr]
  rfl

/-! ## Claim C5: router dispatch -/

/-- C5: `process_unified_query` dispatches by exact string match on
`metadata.page`: the value `"settings"` selects the settings handler,
`"extension"` the extension handler, and every other value — including an
absent `page` key — selects the dashboard handler (the three-way disjunct
rules out any fourth outcome). -/
theorem C5_router_dispatch (metadata : List (String × JVal)) :
    (selectHandler metadata = Handler.settings ↔
      lookupKey metadata "page" = some (JVal.jstr "settings")) ∧
    (selectHandler metadata = Handler.extension ↔
      lookupKey metadata "page" = some (JVal.jstr "extension")) ∧
    (selectHandler metadata = Handler.dashboard ∨
      selectHandler metadata = Handler.settings ∨
      selectHandler metadata = Handler.extension) := by
  unfold selectHandler
  cases h : lookupKey metadata "page" with
  | none => simp
  | some v =>
    cases v with
    | jstr s =>
      by_cases hs : s = "settings"
      · simp [hs]
      · by_cases he : s = "extension" <;> simp [hs, he]
    | jnull => simp
    | jbool b => simp
    | jnum n => simp
    | jarr l => simp
    | jobj l => simp

/-- Witness for C5 at concrete metadata values. -/
theorem C5_router_dispatch_witness :
    selectHandler [("page", JVal.jstr "settings")] = Handler.settings ∧
    selectHandler [("page", JVal.jstr "extension")] = Handler.extension ∧
    selectHandler [("page", JVal.jstr "profile")] = Handler.dashboard ∧
    selectHandler [] = Handler.dashboard := by
  exact ⟨(C5_router_dispatch _).1.mpr rfl, (C5_router_dispatch _).2.1.mpr rfl, rfl, rfl⟩

/-! ## Claim C6: query length validation -/

/-- C6: a request whose query string is longer than `MAX_QUERY_LENGTH`
(500) is rejected with a 400 validation error, and the result does not
depend on the handler outcome — the oracle `r1`/`r2` independence states
that neither the chat service nor the completion engine is consulted. -/
theorem C6_long_query_rejected (request : List (String × JVal)) (q : String)
    (r1 r2 : List (String × JVal))
    (hq : lookupKey request "query" = some (JVal.jstr q))
    (hlen : MAX_QUERY_LENGTH < q.length) :
    unified_chat_processor r1 request =
      ChatResult.httpError 400 "Query exceeds maximum length of 500 characters" ∧
    unified_chat_processor r1 request = unified_chat_processor r2 request := by
  unfold unified_chat_processor
  rw [hq]
  simp only [pyLen, if_pos hlen]
  exact ⟨rfl, trivial⟩

/-! ## Lemmas about the conversation store -/

theorem docMatches_iff (key : UserKey) (before : Nat) (d : StoredDoc) :
    docMatches key before d = true ↔ d.userId = key ∧ d.createdAt < before := by
  simp [docMatches]

theorem mongoPage_length_le (store : List StoredDoc) (key : UserKey) (before limit : Nat) :
    (mongoPage store key before limit).length ≤ limit := by
  unfold mongoPage
  simp [List.length_take_le]

theorem mem_mongoPage {store : List StoredDoc} {key : UserKey} {before limit : Nat}
    {d : StoredDoc} (h : d ∈ mongoPage store key before limit) :
    d ∈ store ∧ docMatches key before d = true := by
  unfold mongoPage at h
  have h1 := List.take_subset _ _ h
  have h2 := (List.mem_insertionSort newestFirst).1 h1
  exact List.mem_filter.1 h2

theorem mongoPage_mem_of (store : List StoredDoc) (key : UserKey) (before limit : Nat)
    {d : StoredDoc} (hd : d ∈ store) (hm : docMatches key before d = true) (hl : 1 ≤ limit) :
    mongoPage store key before limit ≠ [] := by
  unfold mongoPage
  intro hnil
  have hmem : d ∈ store.filter (docMatches key before) := List.mem_filter.2 ⟨hd, hm⟩
  have hlen : 0 < (List.insertionSort newestFirst (store.filter (docMatches key before))).length := by
    rw [List.length_insertionSort]
    exact List.length_pos.2 (List.ne_nil_of_mem hmem)
  have := congrArg List.length hnil
  rw [List.length_take] at this
  simp only [List.length_nil] at this
  omega

theorem mongoPage_sorted (store : List StoredDoc) (key : UserKey) (before limit : Nat) :
    List.Sorted newestFirst (mongoPage store key before limit) :=
  List.Pairwise.sublist (List.take_sublist _ _) (List.sorted_insertionSort _ _)

theorem sorted_asc_reverse {l : List StoredDoc} (h : List.Sorted newestFirst l) :
    List.Sorted (fun a b : StoredDoc => a.createdAt ≤ b.createdAt) l.reverse := by
  unfold List.Sorted at *
  rw [List.pairwise_reverse]
  exact h

theorem mongoPage_newest {store : List StoredDoc} {key : UserKey} {before limit : Nat}
    {q r : StoredDoc} (hq : q ∈ store) (hm : docMatches key before q = true)
    (hnot : q ∉ mongoPage store key before limit)
    (hr : r ∈ mongoPage store key before limit) :
    q.createdAt ≤ r.createdAt := by
  unfold mongoPage at hnot hr
  have hqs : q ∈ List.insertionSort newestFirst (store.filter (docMatches key before)) :=
    (List.mem_insertionSort newestFirst).2 (List.mem_filter.2 ⟨hq, hm⟩)
  have hpair : List.Pairwise newestFirst
      ((List.insertionSort newestFirst (store.filter (docMatches key before))).take limit ++
        (List.insertionSort newestFirst (store.filter (docMatches key before))).drop limit) := by
    rw [List.take_append_drop]
    exact List.sorted_insertionSort _ _
  have hsplit : List.insertionSort newestFirst (store.filter (docMatches key before)) =
      (List.insertionSort newestFirst (store.filter (docMatches key before))).take limit ++
        (List.insertionSort newestFirst (store.filter (docMatches key before))).drop limit :=
    (List.take_append_drop _ _).symm
  rw [hsplit] at hqs
  have hqd : q ∈ (List.insertionSort newestFirst (store.filter (docMatches key before))).drop limit := by
    rcases List.mem_append.1 hqs with h | h
    · exact absurd h hnot
    · exact h
  exact (List.pairwise_append.1 hpair).2.2 r hr q hqd

theorem filter_nil_of_false {α : Type} (l : List α) (p : α → Bool)
    (h : ∀ a ∈ l, p a = false) : l.filter p = [] :=
  List.filter_eq_nil_iff.2 (fun a ha => by simp [h a ha])

theorem mongoPage_nil_of_false (store : List StoredDoc) (key : UserKey) (before limit : Nat)
    (h : ∀ d ∈ store, docMatches key before d = false) :
    mongoPage store key before limit = [] := by
  unfold mongoPage
  rw [filter_nil_of_false store _ h]
  simp

/-- Witness for C6: a 501-character query is rejected. -/
theorem C6_long_query_rejected_witness :
    unified_chat_processor
      [("response_message", JVal.jstr "never consulted")]
      [("query", JVal.jstr (String.mk (List.replicate 501 'a')))] =
      ChatResult.httpError 400 "Query exceeds maximum length of 500 characters" :=
  (C6_long_query_rejected
      [("query", JVal.jstr (String.mk (List.replicate 501 'a')))]
      (String.mk (List.replicate 501 'a'))
      [("response_message", JVal.jstr "never consulted")] []
      rfl
      (by show MAX_QUERY_LENGTH < (List.replicate 501 'a').length
          rw [List.length_replicate]
          decide)).1

/-! ## Claim C8: conversation paging -/

/-- C8 (amended): for a user whose identifier is a valid ObjectId string
and whose turns are all stored under the canonical representation, `GET
conversations` with a limit in 1..100 (default 50) and a `before` bound
(default now) returns at most `limit` turns, each belonging to the user
and strictly older than the bound, in chronological (oldest-first) order,
and they are the newest qualifying turns (no qualifying turn outside the
page is newer than any returned one). The original claim fails for
identifiers that are not valid ObjectId strings: lines 75-78 of
chat_message.py return `[]` without querying, even when qualifying turns
are stored. -/
theorem C8_conversation_paging (store : List StoredDoc) (uid : String)
    (limitArg before : Option Nat) (now : Nat) (res : List StoredDoc)
    (hvalid : isValidObjectId uid = true)
    (hcanon : ∀ d ∈ store, d.userId ≠ UserKey.strKey uid)
    (hres : get_conversations_route store uid limitArg before now = some res) :
    res.length ≤ limitArg.getD 50 ∧
    (∀ d ∈ res, d.userId = UserKey.oid uid ∧ d.createdAt < before.getD now) ∧
    List.Sorted (fun a b : StoredDoc => a.createdAt ≤ b.createdAt) res ∧
    (∀ q ∈ store, docMatches (UserKey.oid uid) (before.getD now) q = true →
      q ∉ res → ∀ r ∈ res, q.createdAt ≤ r.createdAt) := by
  unfold get_conversations_route at hres
  by_cases hr : 1 ≤ limitArg.getD 50 ∧ limitArg.getD 50 ≤ 100
  swap
  · rw [if_neg hr] at hres; exact absurd hres (by simp)
  rw [if_pos hr] at hres
  have hres2 : get_user_conversations store uid (limitArg.getD 50) before now = res := by
    injection hres
  unfold get_user_conversations at hres2
  rw [if_pos hvalid] at hres2
  have hstrnil : mongoPage store (UserKey.strKey uid) (before.getD now) (limitArg.getD 50) = [] :=
    mongoPage_nil_of_false _ _ _ _ (fun d hd => by
      have := hcanon d hd
      simp [docMatches]
      intro h
      exact absurd h this)
  by_cases hempty : (mongoPage store (UserKey.oid uid) (before.getD now) (limitArg.getD 50)).isEmpty
  · rw [if_pos hempty] at hres2
    rw [hstrnil] at hres2
    simp at hres2
    subst hres2
    refine ⟨by simp, by simp, by simp, ?_⟩
    intro q _ _ _ r hr
    exact absurd hr (by simp)
  · rw [if_neg hempty] at hres2
    subst hres2
    refine ⟨?_, ?_, ?_, ?_⟩
    · rw [List.length_reverse]
      exact mongoPage_length_le _ _ _ _
    · intro d hd
      rw [List.mem_reverse] at hd
      have := (mem_mongoPage hd).2
      rw [docMatches_iff] at this
      exact this
    · exact sorted_asc_reverse (mongoPage_sorted _ _ _ _)
    · intro q hq hm hnot r hr
      rw [List.mem_reverse] at hr
      rw [List.mem_reverse] at hnot
      exact mongoPage_newest hq hm hnot hr

/-- Counterexample to C8 as stated: a verified identifier that is not a
valid ObjectId string has a stored qualifying turn, yet the route returns
an empty page instead of the newest qualifying turns. -/
theorem C8_counterexample :
    get_conversations_route
      [⟨UserKey.strKey "user123", "q1", "r1", JVal.jstr "webapp", JVal.jstr "dashboard", 10⟩]
      "user123" (some 2) none 100 = some [] ∧
    docMatches (UserKey.strKey "user123") 100
      ⟨UserKey.strKey "user123", "q1", "r1", JVal.jstr "webapp", JVal.jstr "dashboard", 10⟩ = true :=
  ⟨rfl, rfl⟩

/-- Witness for C8 at a concrete store: three canonical turns, limit 2. -/
theorem C8_conversation_paging_witness :
    (get_conversations_route
      [⟨UserKey.oid "507f1f77bcf86cd799439011", "q1", "r1", JVal.jstr "webapp", JVal.jstr "dashboard", 1⟩,
       ⟨UserKey.oid "507f1f77bcf86cd799439011", "q2", "r2", JVal.jstr "webapp", JVal.jstr "dashboard", 2⟩,
       ⟨UserKey.oid "507f1f77bcf86cd799439011", "q3", "r3", JVal.jstr "webapp", JVal.jstr "dashboard", 3⟩]
      "507f1f77bcf86cd799439011" (some 2) none 100).getD [] =
      [⟨UserKey.oid "507f1f77bcf86cd799439011", "q2", "r2", JVal.jstr "webapp", JVal.jstr "dashboard", 2⟩,
       ⟨UserKey.oid "507f1f77bcf86cd799439011", "q3", "r3", JVal.jstr "webapp", JVal.jstr "dashboard", 3⟩] ∧
    ((get_conversations_route
      [⟨UserKey.oid "507f1f77bcf86cd799439011", "q1", "r1", JVal.jstr "webapp", JVal.jstr "dashboard", 1⟩,
       ⟨UserKey.oid "507f1f77bcf86cd799439011", "q2", "r2", JVal.jstr "webapp", JVal.jstr "dashboard", 2⟩,
       ⟨UserKey.oid "507f1f77bcf86cd799439011", "q3", "r3", JVal.jstr "webapp", JVal.jstr "dashboard", 3⟩]
      "507f1f77bcf86cd799439011" (some 2) none 100).getD []).length ≤ 2 := by
  constructor
  · rfl
  · have h := C8_conversation_paging
      [⟨UserKey.oid "507f1f77bcf86cd799439011", "q1", "r1", JVal.jstr "webapp", JVal.jstr "dashboard", 1⟩,
       ⟨UserKey.oid "507f1f77bcf86cd799439011", "q2", "r2", JVal.jstr "webapp", JVal.jstr "dashboard", 2⟩,
       ⟨UserKey.oid "507f1f77bcf86cd799439011", "q3", "r3", JVal.jstr "webapp", JVal.jstr "dashboard", 3⟩]
      "507f1f77bcf86cd799439011" (some 2) none 100
      [⟨UserKey.oid "507f1f77bcf86cd799439011", "q2", "r2", JVal.jstr "webapp", JVal.jstr "dashboard", 2⟩,
       ⟨UserKey.oid "507f1f77bcf86cd799439011", "q3", "r3", JVal.jstr "webapp", JVal.jstr "dashboard", 3⟩]
      (by decide)
      (by intro d hd
          rcases List.mem_cons.1 hd with rfl | hd
          · simp
          rcases List.mem_cons.1 hd with rfl | hd
          · simp
          rcases List.mem_cons.1 hd with rfl | hd
          · simp
          · exact absurd hd (by simp))
      rfl
    exact h.1

/-! ## Claim C9: delete then read back -/

/-- C9 (amended): `DELETE conversations` followed by `GET conversations`
returns an empty result set with a zero count, provided the identifier is
a valid ObjectId string and the user's turns were stored under the
canonical ObjectId representation. The original "regardless of
representation" fails: lines 98-105 of chat_message.py delete only
ObjectId-keyed documents, so string-keyed turns survive the deletion and
are returned again by the read's string fallback (lines 87-90). -/
theorem C9_delete_then_get (store : List StoredDoc) (uid : String) (limit : Nat)
    (before : Option Nat) (now : Nat)
    (hvalid : isValidObjectId uid = true)
    (hcanon : ∀ d ∈ store, d.userId ≠ UserKey.strKey uid) :
    get_user_conversations (delete_user_conversations store uid).1 uid limit before now = [] ∧
    count_user_messages (delete_user_conversations store uid).1 uid = 0 := by
  have hsub : ∀ d ∈ (delete_user_conversations store uid).1, d ∈ store := by
    intro d hd
    unfold delete_user_conversations at hd
    rw [if_pos hvalid] at hd
    exact List.mem_of_mem_filter hd
  have hnooid : ∀ d ∈ (delete_user_conversations store uid).1,
      d.userId ≠ UserKey.oid uid := by
    intro d hd
    unfold delete_user_conversations at hd
    rw [if_pos hvalid] at hd
    have := List.of_mem_filter hd
    simpa using this
  constructor
  · unfold get_user_conversations
    rw [if_pos hvalid]
    have h1 : mongoPage (delete_user_conversations store uid).1 (UserKey.oid uid)
        (before.getD now) limit = [] :=
      mongoPage_nil_of_false _ _ _ _ (fun d hd => by
        simp [docMatches]
        intro h
        exact absurd h (hnooid d hd))
    have h2 : mongoPage (delete_user_conversations store uid).1 (UserKey.strKey uid)
        (before.getD now) limit = [] :=
      mongoPage_nil_of_false _ _ _ _ (fun d hd => by
        simp [docMatches]
        intro h
        exact absurd h (hcanon d (hsub d hd)))
    rw [h1, h2]
    simp
  · unfold count_user_messages
    rw [if_pos hvalid]
    rw [filter_nil_of_false _ _ (fun d hd => by
      simp
      exact hnooid d hd)]
    rfl

/-- Counterexample to C9 as stated: a turn stored under the string
representation of a valid ObjectId survives `DELETE conversations`
(deleted count 0) and is returned again by the following `GET`, which is
therefore not empty. -/
theorem C9_counterexample :
    (delete_user_conversations
      [⟨UserKey.strKey "507f1f77bcf86cd799439011", "q", "r", JVal.jstr "webapp", JVal.jstr "dashboard", 10⟩]
      "507f1f77bcf86cd799439011").2 = 0 ∧
    get_user_conversations
      (delete_user_conversations
        [⟨UserKey.strKey "507f1f77bcf86cd799439011", "q", "r", JVal.jstr "webapp", JVal.jstr "dashboard", 10⟩]
        "507f1f77bcf86cd799439011").1
      "507f1f77bcf86cd799439011" 50 none 100 =
      [⟨UserKey.strKey "507f1f77bcf86cd799439011", "q", "r", JVal.jstr "webapp", JVal.jstr "dashboard", 10⟩] :=
  ⟨rfl, rfl⟩

/-- Witness for C9 at a concrete canonical store. -/
theorem C9_delete_then_get_witness :
    get_user_conversations
      (delete_user_conversations
        [⟨UserKey.oid "507f191e810c19729de860ea", "q", "r", JVal.jstr "webapp", JVal.jstr "dashboard", 7⟩]
        "507f191e810c19729de860ea").1
      "507f191e810c19729de860ea" 50 none 100 = [] ∧
    count_user_messages
      (delete_user_conversations
        [⟨UserKey.oid "507f191e810c19729de860ea", "q", "r", JVal.jstr "webapp", JVal.jstr "dashboard", 7⟩]
        "507f191e810c19729de860ea").1
      "507f191e810c19729de860ea" = 0 :=
  C9_delete_then_get
    [⟨UserKey.oid "507f191e810c19729de860ea", "q", "r", JVal.jstr "webapp", JVal.jstr "dashboard", 7⟩]
    "507f191e810c19729de860ea" 50 none 100
    (by decide)
    (by intro d hd
        rcases List.mem_cons.1 hd with rfl | hd
        · simp
        · exact absurd hd (by simp))

/-! ## Claim C10: dual-representation lookup -/

/-- C10 (amended): for a verified identifier that is a valid ObjectId
string, history lookups tolerate both userId representations: when some
canonical (ObjectId-keyed) turn qualifies, the returned page is non-empty
and consists of canonical turns (the canonical form is tried first); when
none qualifies but a string-keyed turn does, the returned page is
non-empty and consists of string-keyed turns (the fallback). The original
"for every verified user identifier" fails: for an identifier that is not
a valid ObjectId string, lines 75-78 of chat_message.py return `[]`
without ever trying the string form. -/
theorem C10_dual_representation (store : List StoredDoc) (uid : String) (limit : Nat)
    (before : Option Nat) (now : Nat)
    (hvalid : isValidObjectId uid = true) (hlim : 1 ≤ limit) :
    ((∃ d ∈ store, docMatches (UserKey.oid uid) (before.getD now) d = true) →
      get_user_conversations store uid limit before now ≠ [] ∧
      ∀ r ∈ get_user_conversations store uid limit before now,
        r.userId = UserKey.oid uid) ∧
    (((∀ d ∈ store, docMatches (UserKey.oid uid) (before.getD now) d = false) ∧
      (∃ d ∈ store, docMatches (UserKey.strKey uid) (before.getD now) d = true)) →
      get_user_conversations store uid limit before now ≠ [] ∧
      ∀ r ∈ get_user_conversations store uid limit before now,
        r.userId = UserKey.strKey uid) := by
  constructor
  · rintro ⟨d, hd, hm⟩
    have hne := mongoPage_mem_of store (UserKey.oid uid) (before.getD now) limit hd hm hlim
    unfold get_user_conversations
    rw [if_pos hvalid]
    have hempty : (mongoPage store (UserKey.oid uid) (before.getD now) limit).isEmpty = false := by
      cases h : mongoPage store (UserKey.oid uid) (before.getD now) limit with
      | nil => exact absurd h hne
      | cons a t => rfl
    rw [hempty]
    simp only [Bool.false_eq_true, if_false]
    constructor
    · simp [hne]
    · intro r hr
      rw [List.mem_reverse] at hr
      have := (mem_mongoPage hr).2
      rw [docMatches_iff] at this
      exact this.1
  · rintro ⟨hall, d, hd, hm⟩
    have hoidnil : mongoPage store (UserKey.oid uid) (before.getD now) limit = [] :=
      mongoPage_nil_of_false _ _ _ _ hall
    have hne := mongoPage_mem_of store (UserKey.strKey uid) (before.getD now) limit hd hm hlim
    unfold get_user_conversations
    rw [if_pos hvalid, hoidnil]
    simp only [List.isEmpty_nil, if_true]
    constructor
    · simp [hne]
    · intro r hr
      rw [List.mem_reverse] at hr
      have := (mem_mongoPage hr).2
      rw [docMatches_iff] at this
      exact this.1

/-- Counterexample to C10 as stated: a verified identifier that is not a
valid ObjectId string never reaches the string fallback — the stored
string-keyed qualifying turn is not retrieved. -/
theorem C10_counterexample :
    isValidObjectId "alice@example.com" = false ∧
    get_user_conversations
      [⟨UserKey.strKey "alice@example.com", "q", "r", JVal.jstr "webapp", JVal.jstr "extension", 5⟩]
      "alice@example.com" 50 none 50 = [] ∧
    docMatches (UserKey.strKey "alice@example.com") 50
      ⟨UserKey.strKey "alice@example.com", "q", "r", JVal.jstr "webapp", JVal.jstr "extension", 5⟩ = true :=
  ⟨rfl, rfl, rfl⟩

/-! ## Claim C3: the filter-clear directive -/

theorem data_head_append (a b : String) (c : Char) (h : a.data.head? = some c) :
    (a ++ b).data.head? = some c := by
  rw [String.data_append]
  cases ha : a.data with
  | nil => rw [ha] at h; exact absurd h (by simp)
  | cons x t =>
    rw [ha] at h
    simp at h
    simp [h]

theorem head_ne_directive (s : String) (c : Char) (h : s.data.head? = some c)
    (hc : c ≠ '\n') : s ≠ filterClearDirective := by
  intro he
  rw [he] at h
  have h2 : filterClearDirective.data.head? = some '\n' := rfl
  rw [h2] at h
  exact hc (Option.some.inj h).symm

theorem dumps_obj_ne_directive (l : List (String × JVal)) :
    json_dumps (JVal.jobj l) ≠ filterClearDirective :=
  head_ne_directive _ '{' rfl (by decide)

theorem directive_not_mem_base (ctx : List (String × JVal)) (nowFmt nowIso : String)
    (names : List JVal) : filterClearDirective ∉ baseParts ctx nowFmt nowIso names := by
  intro h
  simp only [baseParts, List.mem_cons, List.not_mem_nil, or_false] at h
  rcases h with h | h | h | h | h | h | h | h
  · exact absurd h.symm
      (head_ne_directive _ 'C' (data_head_append _ _ _ rfl) (by decide))
  · exact absurd h.symm (by decide : "\nAVAILABLE OPTIONS:" ≠ filterClearDirective)
  · exact absurd h.symm
      (head_ne_directive _ '-' (data_head_append _ _ _ rfl) (by decide))
  · exact absurd h.symm
      (head_ne_directive _ '-' (data_head_append _ _ _ rfl) (by decide))
  · exact absurd h.symm
      (head_ne_directive _ '-' (data_head_append _ _ _ rfl) (by decide))
  · exact absurd h.symm
      (head_ne_directive _ '-' (data_head_append _ _ _ rfl) (by decide))
  · exact absurd h.symm
      (head_ne_directive _ '-' (data_head_append _ _ _ rfl) (by decide))
  · exact absurd h.symm
      (head_ne_directive _ '-' (data_head_append _ _ _ rfl) (by decide))

theorem directive_not_mem_lastConv (ctx : List (String × JVal)) (uiEmpty : Bool)
    (last : List String) (h : lastConvParts ctx uiEmpty = some last) :
    filterClearDirective ∉ last := by
  unfold lastConvParts at h
  intro hmem
  rcases hv : (lookupKey ctx "lastConversation").getD JVal.jnull with _ | b | n | s | l | ld
  all_goals rw [hv] at h
  all_goals dsimp only at h
  case jobj =>
    by_cases ht : truthy (JVal.jobj ld) = true
    swap
    · rw [if_neg ht] at h
      injection h with h
      rw [← h] at hmem
      exact List.not_mem_nil _ hmem
    rw [if_pos ht] at h
    by_cases hqr : (truthy ((lookupKey ld "query").getD JVal.jnull) &&
        truthy ((lookupKey ld "response").getD JVal.jnull)) = true
    swap
    · rw [if_neg hqr] at h
      injection h with h
      rw [← h] at hmem
      exact List.not_mem_nil _ hmem
    rw [if_pos hqr] at h
    injection h with h
    rw [← h] at hmem
    simp only [List.mem_append, List.mem_cons, List.not_mem_nil, or_false] at hmem
    rcases hmem with (hmem | hmem | hmem) | hmem
    · exact absurd hmem.symm (by decide : "\nLAST CONVERSATION:" ≠ filterClearDirective)
    · exact absurd hmem.symm
        (head_ne_directive _ 'U' (data_head_append _ _ _ rfl) (by decide))
    · exact absurd hmem.symm
        (head_ne_directive _ 'A' (data_head_append _ _ _ rfl) (by decide))
    · rcases huie : uiEmpty with _ | _
      all_goals rw [huie] at hmem
      · simp at hmem
      · have : filterClearDirective = filtersInactiveNote := by simpa using hmem
        exact (by decide : filterClearDirective ≠ filtersInactiveNote) this
  all_goals (
    split_ifs at h
    all_goals
      first
      | exact Option.noConfusion h
      | (injection h with h
         rw [← h] at hmem
         exact List.not_mem_nil _ hmem))

/-- C3 (amended): for a dashboard context with a present (truthy, dict)
`uiState`, the formatted context block contains the filter-clear directive
exactly when the code's `filters_empty` check holds — which differs from
the §3 emptiness in that a price bound that is present but `0` (or
otherwise falsy) counts as empty. The original claim, with §3's "absent
price min and max", fails at `price.min = 0`. -/
theorem C3_filter_clear_directive (ctx : List (String × JVal)) (nowFmt nowIso : String)
    (ud : List (String × JVal)) (ps : List String) (feb : Bool)
    (hui : lookupKey ctx "uiState" = some (JVal.jobj ud))
    (hne : truthy (JVal.jobj ud) = true)
    (hfe : filtersEmptyCheck ud = some feb)
    (hps : prepare_context_parts ctx nowFmt nowIso = some ps) :
    filterClearDirective ∈ ps ↔ feb = true := by
  unfold prepare_context_parts at hps
  rcases Option.bind_eq_some.1 hps with ⟨names, hn, hps2⟩
  rcases Option.bind_eq_some.1 hps2 with ⟨ui, hu, hps3⟩
  rcases Option.map_eq_some'.1 hps3 with ⟨last, hl, hps4⟩
  have hu2 : ui = (["\nCURRENT UI STATE:", json_dumps (JVal.jobj ud)] ++
      (if feb then [filterClearDirective] else []), feb) := by
    unfold uiStateParts at hu
    rw [hui] at hu
    simp only [Option.getD_some] at hu
    rw [if_pos hne, hfe] at hu
    simpa using hu.symm
  subst hps4
  subst hu2
  constructor
  · intro hmem
    simp only [List.mem_append] at hmem
    rcases hmem with (hmem | hmem) | hmem
    · exact absurd hmem (directive_not_mem_base ctx nowFmt nowIso names)
    · simp only [List.mem_append, List.mem_cons, List.not_mem_nil, or_false] at hmem
      rcases hmem with (hmem | hmem) | hmem
      · exact absurd hmem.symm (by decide : "\nCURRENT UI STATE:" ≠ filterClearDirective)
      · exact absurd hmem.symm (dumps_obj_ne_directive ud)
      · rcases hfb : feb with _ | _
        · rw [hfb] at hmem
          simp at hmem
        · rfl
    · exact absurd hmem (directive_not_mem_lastConv ctx _ last hl)
  · intro hfeb
    subst hfeb
    simp

/-- Counterexample to C3 as stated: a UI filter state whose price has a
present `min` of `0` is non-empty per the §3 definition, yet the code's
truthiness test treats it as empty and the formatted context block
contains the filter-clear directive. -/
theorem C3_counterexample :
    specFilterStateEmpty [("price", JVal.jobj [("min", JVal.jnum 0)])] = false ∧
    ((prepare_context_parts
      [("uiState", JVal.jobj [("filters", JVal.jobj [("price", JVal.jobj [("min", JVal.jnum 0)])])])]
      "Monday, March 10, 2025" "2025-03-10T00:00:00").getD []).contains
      filterClearDirective = true :=
  ⟨rfl, rfl⟩

/-- Witness for C3 at a concrete context whose filters were cleared. -/
theorem C3_filter_clear_directive_witness :
    filterClearDirective ∈
      ["CURRENT DATE: Fri (iso)",
        "\nAVAILABLE OPTIONS:",
        "- Categories: []", "- Stores: []", "- Lists: []",
        "- View Modes: []", "- Sort Options: []", "- Group Options: []",
        "\nCURRENT UI STATE:",
        json_dumps (JVal.jobj [("filters", JVal.jobj [])]),
        filterClearDirective] :=
  (C3_filter_clear_directive
      [("uiState", JVal.jobj [("filters", JVal.jobj [])])] "Fri" "iso"
      [("filters", JVal.jobj [])]
      ["CURRENT DATE: Fri (iso)",
        "\nAVAILABLE OPTIONS:",
        "- Categories: []", "- Stores: []", "- Lists: []",
        "- View Modes: []", "- Sort Options: []", "- Group Options: []",
        "\nCURRENT UI STATE:",
        json_dumps (JVal.jobj [("filters", JVal.jobj [])]),
        filterClearDirective]
      true rfl rfl rfl rfl).2 rfl

/-! ## Claim C4: the root-level price tolerance rule -/

/-- C4 (amended): a `price` object at the payload root with a non-null
`min` or `max` is always copied into the normalized output's
`filters.price` — displacing a nested `filters.price` when one was
present, not only filling in for an absent one. -/
theorem C4_root_price (d pd m : List (String × JVal))
    (hroot : lookupKey d "price" = some (JVal.jobj pd))
    (hnn : (hasNonNull pd "min" || hasNonNull pd "max") = true)
    (hm : normalizeDecoded (JVal.jobj d) = some m) :
    ∃ ff, lookupKey m "filters" = some (JVal.jobj ff) ∧
      lookupKey ff "price" = some (JVal.jobj pd) := by
  rw [normalizeDecoded_obj_eq] at hm
  simp only [Option.bind_eq_some] at hm
  rcases hm with ⟨f1, hf1, f2, hf2, hm⟩
  injection hm with hm
  unfold rootPriceStep at hf2
  rw [hroot] at hf2
  dsimp only at hf2
  rw [if_pos hnn] at hf2
  injection hf2 with hf2
  subst hm
  cases hl : lookupKey f1 "filters" with
  | none =>
    rw [hl] at hf2
    dsimp only at hf2
    refine ⟨[("price", JVal.jobj pd)], ?_, by simp [lookupKey]⟩
    rw [← hf2]
    simp [lookupKey_append, lookupKey_setKey_self]
  | some fv =>
    cases fv with
    | jobj ff0 =>
      rw [hl] at hf2
      dsimp only at hf2
      refine ⟨setKey ff0 "price" (JVal.jobj pd), ?_, lookupKey_setKey_self _ _ _⟩
      rw [← hf2]
      simp [lookupKey_append, lookupKey_setKey_self]
    | jnull =>
      rw [hl] at hf2
      dsimp only at hf2
      refine ⟨[("price", JVal.jobj pd)], ?_, by simp [lookupKey]⟩
      rw [← hf2]
      simp [lookupKey_append, lookupKey_setKey_self]
    | jbool b =>
      rw [hl] at hf2
      dsimp only at hf2
      refine ⟨[("price", JVal.jobj pd)], ?_, by simp [lookupKey]⟩
      rw [← hf2]
      simp [lookupKey_append, lookupKey_setKey_self]
    | jnum n =>
      rw [hl] at hf2
      dsimp only at hf2
      refine ⟨[("price", JVal.jobj pd)], ?_, by simp [lookupKey]⟩
      rw [← hf2]
      simp [lookupKey_append, lookupKey_setKey_self]
    | jstr s =>
      rw [hl] at hf2
      dsimp only at hf2
      refine ⟨[("price", JVal.jobj pd)], ?_, by simp [lookupKey]⟩
      rw [← hf2]
      simp [lookupKey_append, lookupKey_setKey_self]
    | jarr l =>
      rw [hl] at hf2
      dsimp only at hf2
      refine ⟨[("price", JVal.jobj pd)], ?_, by simp [lookupKey]⟩
      rw [← hf2]
      simp [lookupKey_append, lookupKey_setKey_self]

/-- Counterexample to C4 as stated: with a non-empty nested
`filters.price` of `min 1` present, the root-level `price` of `min 2`
still displaces it — the normalized output carries the root value, not
the nested one. -/
theorem C4_counterexample :
    parse_llm_response
      "\x7b\"filters\": \x7b\"price\": \x7b\"min\": 1\x7d\x7d, \"price\": \x7b\"min\": 2\x7d, \"response_message\": \"x\"\x7d" =
      [("filters", JVal.jobj [("price", JVal.jobj [("min", JVal.jnum 2)])]),
       ("response_message", JVal.jstr "x")] := rfl

/-- Witness for C4 at a concrete decoded payload. -/
theorem C4_root_price_witness :
    ∃ ff,
      lookupKey ((normalizeDecoded (JVal.jobj [("price", JVal.jobj [("max", JVal.jnum 9)]),
        ("response_message", JVal.jstr "ok")])).getD []) "filters" = some (JVal.jobj ff) ∧
      lookupKey ff "price" = some (JVal.jobj [("max", JVal.jnum 9)]) := by
  have h := C4_root_price
    [("price", JVal.jobj [("max", JVal.jnum 9)]), ("response_message", JVal.jstr "ok")]
    [("max", JVal.jnum 9)]
    [("filters", JVal.jobj [("price", JVal.jobj [("max", JVal.jnum 9)])]),
      ("response_message", JVal.jstr "ok")]
    rfl (by decide) rfl
  have he : normalizeDecoded (JVal.jobj [("price", JVal.jobj [("max", JVal.jnum 9)]),
      ("response_message", JVal.jstr "ok")]) = some
      [("filters", JVal.jobj [("price", JVal.jobj [("max", JVal.jnum 9)])]),
        ("response_message", JVal.jstr "ok")] := rfl
  rw [he, Option.getD_some]
  exact h

/-- Witness for C10: the string fallback fires for a valid ObjectId whose
only turn is string-keyed. -/
theorem C10_dual_representation_witness :
    get_user_conversations
      [⟨UserKey.strKey "507f191e810c19729de860eb", "q", "r", JVal.jstr "webapp", JVal.jstr "dashboard", 3⟩]
      "507f191e810c19729de860eb" 50 none 100 ≠ [] :=
  ((C10_dual_representation
      [⟨UserKey.strKey "507f191e810c19729de860eb", "q", "r", JVal.jstr "webapp", JVal.jstr "dashboard", 3⟩]
      "507f191e810c19729de860eb" 50 none 100 (by decide) (by decide)).2
    ⟨by intro d hd
        rcases List.mem_cons.1 hd with rfl | hd
        · rfl
        · exact absurd hd (by simp),
      ⟨⟨UserKey.strKey "507f191e810c19729de860eb", "q", "r", JVal.jstr "webapp", JVal.jstr "dashboard", 3⟩,
        List.mem_cons_self _ _, rfl⟩⟩).1

/-! ## Claims C1 and C2: the normalizer and handler output contracts -/

theorem mem_optEntry {k : String} {o : Option JVal} {p : String × JVal}
    (hp : p ∈ optEntry k o) : ∃ v, o = some v ∧ p = (k, v) := by
  cases o with
  | none => simp [optEntry] at hp
  | some v =>
    simp only [optEntry, List.mem_singleton] at hp
    exact ⟨v, rfl, hp⟩

theorem mem_filtAssemble_truthy {c s li t a pr : Option JVal}
    (hc : OptTruthyWf c) (hs : OptTruthyWf s) (hli : OptTruthyWf li)
    (ht : OptTRWf t) (ha : OptTruthyWf a) (hpr : OptPriceWf pr)
    {q : String × JVal} (hq : q ∈ filtAssemble c s li t a pr) :
    truthy q.2 = true := by
  unfold filtAssemble at hq
  simp only [List.mem_append] at hq
  rcases hq with ((((hq | hq) | hq) | hq) | hq) | hq
  · obtain ⟨v, hv, rfl⟩ := mem_optEntry hq
    exact (hc v hv).1
  · obtain ⟨v, hv, rfl⟩ := mem_optEntry hq
    exact (hs v hv).1
  · obtain ⟨v, hv, rfl⟩ := mem_optEntry hq
    exact (hli v hv).1
  · obtain ⟨v, hv, rfl⟩ := mem_optEntry hq
    exact (ht v hv).1
  · obtain ⟨v, hv, rfl⟩ := mem_optEntry hq
    exact (ha v hv).1
  · obtain ⟨v, hv, rfl⟩ := mem_optEntry hq
    obtain ⟨hwf, pd, rfl, hnn⟩ := hpr v hv
    have hnn2 : hasNonNull pd "min" = true ∨ hasNonNull pd "max" = true := by
      simpa using hnn
    rcases hnn2 with h | h <;> exact hasNonNull_truthy h

theorem parse_llm_shape (s : String) :
    (∃ rv, lookupKey (parse_llm_response s) "response_message" = some rv ∧
      ∀ d m, json_loads_chars (cleanReply s.data) = some (JVal.jobj d) →
        normalizeDecoded (JVal.jobj d) = some m → rv = respMsgVal d) ∧
    (∀ p, p ∈ parse_llm_response s → p.1 = "response_message" ∨
      (truthy p.2 = true ∧ (p.1 = "filters" →
        ∃ ff, p.2 = JVal.jobj ff ∧ ff ≠ [] ∧ ∀ q, q ∈ ff → truthy q.2 = true))) := by
  rcases hj : json_loads_chars (cleanReply s.data) with _ | v
  · have he : parse_llm_response s = parseErrorFallback := by
      unfold parse_llm_response
      rw [hj]
    rw [he]
    constructor
    · exact ⟨JVal.jstr "I encountered an error processing the response. Please try again.",
        rfl, fun d m hd _ => absurd hd (by simp)⟩
    · intro p hp
      simp only [parseErrorFallback, List.mem_singleton] at hp
      subst hp
      exact Or.inl rfl
  · rcases hn : normalizeDecoded v with _ | m
    · have he : parse_llm_response s = unexpectedErrorFallback := by
        unfold parse_llm_response
        rw [hj]
        dsimp only
        rw [hn]
        rfl
      rw [he]
      constructor
      · refine ⟨JVal.jstr "I encountered an unexpected error. Please try again.", rfl, ?_⟩
        intro d m hd hm
        have hv : v = JVal.jobj d := Option.some.inj hd
        rw [hv] at hn
        exact absurd (hn.symm.trans hm) (by simp)
      · intro p hp
        simp only [unexpectedErrorFallback, List.mem_singleton] at hp
        subst hp
        exact Or.inl rfl
    · have hwf : wfJ v = true := json_loads_wf hj
      have he : parse_llm_response s = m := by
        unfold parse_llm_response
        rw [hj]
        dsimp only
        rw [hn]
        rfl
      rcases v with _ | b | n | st | arr | d
      · rw [show normalizeDecoded JVal.jnull = none from rfl] at hn
        exact absurd hn (by simp)
      · rw [show normalizeDecoded (JVal.jbool b) = none from rfl] at hn
        exact absurd hn (by simp)
      · rw [show normalizeDecoded (JVal.jnum n) = none from rfl] at hn
        exact absurd hn (by simp)
      · rw [show normalizeDecoded (JVal.jstr st) = none from rfl] at hn
        exact absurd hn (by simp)
      · rw [show normalizeDecoded (JVal.jarr arr) = none from rfl] at hn
        exact absurd hn (by simp)
      · obtain ⟨fopt, hF, hm⟩ := normalizeDecoded_shape d m hwf hn
        have hwfo : wfObj d = true := wfObj_of_wfJ_obj hwf
        rw [he, hm]
        constructor
        · refine ⟨respMsgVal d, (lookup_normAssemble fopt _ _ _ _ _ _).2.2.2.2.2.1, ?_⟩
          intro d2 m2 hd2 _
          have hvv : JVal.jobj d = JVal.jobj d2 := Option.some.inj hd2
          injection hvv with hdd
          rw [hdd]
        · intro p hp
          unfold normAssemble at hp
          simp only [List.mem_append] at hp
          rcases hp with (((((hp | hp) | hp) | hp) | hp) | hp) | hp
          · obtain ⟨v0, hv0, rfl⟩ := mem_optEntry hp
            obtain ⟨ff, rfl, hne, hFC⟩ := hF v0 hv0
            refine Or.inr ⟨truthy_jobj_of_ne_nil hne, fun _ => ⟨ff, rfl, hne, ?_⟩⟩
            obtain ⟨c, s1, li, t, a, pr, rfl, hc, hs1, hli, ht, ha, hpr⟩ := hFC
            intro q hq
            exact mem_filtAssemble_truthy hc hs1 hli ht ha hpr hq
          · obtain ⟨v0, hv0, rfl⟩ := mem_optEntry hp
            refine Or.inr ⟨(truthyOptField_spec d "view_mode" hwfo v0 hv0).1, fun hf => ?_⟩
            simp at hf
          · obtain ⟨v0, hv0, rfl⟩ := mem_optEntry hp
            refine Or.inr ⟨(truthyOptField_spec d "sort_by" hwfo v0 hv0).1, fun hf => ?_⟩
            simp at hf
          · obtain ⟨v0, hv0, rfl⟩ := mem_optEntry hp
            refine Or.inr ⟨(truthyOptField_spec d "group_by" hwfo v0 hv0).1, fun hf => ?_⟩
            simp at hf
          · obtain ⟨v0, hv0, rfl⟩ := mem_optEntry hp
            rw [closeTabsOpt_spec d v0 hv0]
            refine Or.inr ⟨rfl, fun hf => ?_⟩
            simp at hf
          · simp only [List.mem_singleton] at hp
            subst hp
            exact Or.inl rfl
          · obtain ⟨v0, hv0, rfl⟩ := mem_optEntry hp
            refine Or.inr ⟨(truthyOptField_spec d "generalResponse" hwfo v0 hv0).1, fun hf => ?_⟩
            simp at hf

/-- C1: the dashboard response normalizer is total: for every input string
— empty, non-JSON text, or JSON of a wrong type — the result is a dict
binding `response_message` to some value. When the decoded payload is an
object and normalization succeeds, that value is the payload's own
`response_message` passed through verbatim (the fixed default only when
the key is absent), so it need not be a non-empty string. -/
theorem C1_response_message_total (s : String) :
    ∃ rv, lookupKey (parse_llm_response s) "response_message" = some rv ∧
      ∀ d m, json_loads_chars (cleanReply s.data) = some (JVal.jobj d) →
        normalizeDecoded (JVal.jobj d) = some m → rv = respMsgVal d :=
  (parse_llm_shape s).1

/-- C1 counterexample: a payload whose `response_message` is the empty
string is passed through unchanged — the whole normalized output binds
`response_message` to `""`, not to a non-empty string. -/
theorem C1_counterexample :
    parse_llm_response "\x7b\"response_message\": \"\"\x7d" =
      [("response_message", JVal.jstr "")] := rfl

/-- Witness for C1 at a payload carrying a null `response_message`. -/
theorem C1_response_message_total_witness :
    lookupKey (parse_llm_response "\x7b\"response_message\": null\x7d") "response_message" =
      some JVal.jnull := by
  obtain ⟨rv, h1, h2⟩ := C1_response_message_total "\x7b\"response_message\": null\x7d"
  have hrv : rv = respMsgVal [("response_message", JVal.jnull)] :=
    h2 [("response_message", JVal.jnull)] _ rfl rfl
  rw [hrv] at h1
  exact h1

/-- C2: shapes of the three handlers' outputs. The dashboard result always
carries `response_message` and every other entry is truthy — `filters`, if
present, a non-empty object of truthy fields. But the settings handler
returns only `generalResponse` and never a `response_message`, and the
extension handler's structured path always emits a `goto` key, bound to
null whenever the payload had none — so the claimed invariant fails for
the settings and extension handlers. -/
theorem C2_output_shapes :
    (∀ r : Option String,
      (∃ rv, lookupKey (dashboard_process_query r) "response_message" = some rv) ∧
      ∀ p, p ∈ dashboard_process_query r → p.1 = "response_message" ∨
        (truthy p.2 = true ∧ (p.1 = "filters" →
          ∃ ff, p.2 = JVal.jobj ff ∧ ff ≠ [] ∧ ∀ q, q ∈ ff → truthy q.2 = true))) ∧
    (∀ c : Option String, ∃ t, settings_process_query c = [("generalResponse", JVal.jstr t)] ∧
      lookupKey (settings_process_query c) "response_message" = none) ∧
    (∀ msg : ExtMessage,
      ∃ rv, lookupKey (extension_process_query msg) "response_message" = some rv) ∧
    (∀ args d content, json_loads args = some (JVal.jobj d) → args ≠ "" →
      extension_process_query ⟨some args, content⟩ =
        [("response_message",
            (lookupKey d "response_message").getD (JVal.jstr extUnsureText)),
         ("goto", (lookupKey d "goto").getD JVal.jnull)]) := by
  refine ⟨?_, ?_, ?_, ?_⟩
  · intro r
    cases r with
    | none =>
      refine ⟨⟨JVal.jstr handlerErrorMessage, rfl⟩, ?_⟩
      intro p hp
      simp only [dashboard_process_query, dashboardErrorResponse, List.mem_singleton] at hp
      subst hp
      exact Or.inl rfl
    | some s =>
      obtain ⟨⟨rv, h1, _⟩, h2⟩ := parse_llm_shape s
      exact ⟨⟨rv, h1⟩, h2⟩
  · intro c
    cases c with
    | none => exact ⟨settingsErrorText, rfl, rfl⟩
    | some content => exact ⟨pyStripStr content, rfl, rfl⟩
  · intro msg
    rcases msg with ⟨fca, content⟩
    rcases fca with _ | args
    · rcases content with _ | c
      · exact ⟨JVal.jstr extUnsureText, rfl⟩
      · exact ⟨_, rfl⟩
    · unfold extension_process_query
      dsimp only
      by_cases hne : args ≠ ""
      · rw [if_pos hne]
        rcases hjl : json_loads args with _ | v
        · rcases content with _ | c
          · exact ⟨JVal.jstr extUnsureText, rfl⟩
          · exact ⟨_, rfl⟩
        · rcases v with _ | b | n | st | arr | d
          · exact ⟨JVal.jstr handlerErrorMessage, rfl⟩
          · exact ⟨JVal.jstr handlerErrorMessage, rfl⟩
          · exact ⟨JVal.jstr handlerErrorMessage, rfl⟩
          · exact ⟨JVal.jstr handlerErrorMessage, rfl⟩
          · exact ⟨JVal.jstr handlerErrorMessage, rfl⟩
          · exact ⟨_, rfl⟩
      · rw [if_neg hne]
        rcases content with _ | c
        · exact ⟨JVal.jstr extUnsureText, rfl⟩
        · exact ⟨_, rfl⟩
  · intro args d content hjd hne
    unfold extension_process_query
    dsimp only
    rw [if_pos hne, hjd]

/-- C2 counterexample: the extension structured path emits `goto: null`
when the payload has no `goto`, and the settings result has no
`response_message` at all. -/
theorem C2_counterexample :
    extension_process_query ⟨some "\x7b\"response_message\": \"Hi!\"\x7d", none⟩ =
      [("response_message", JVal.jstr "Hi!"), ("goto", JVal.jnull)] ∧
    lookupKey (settings_process_query (some "All saved.")) "response_message" = none :=
  ⟨rfl, rfl⟩

/-- Witness for C2 at concrete handler inputs. -/
theorem C2_output_shapes_witness :
    (∃ rv, lookupKey (dashboard_process_query none) "response_message" = some rv) ∧
    (∃ t, settings_process_query (some " hi ") = [("generalResponse", JVal.jstr t)] ∧
      lookupKey (settings_process_query (some " hi ")) "response_message" = none) ∧
    extension_process_query ⟨some "\x7b\"goto\": \"settings\"\x7d", none⟩ =
      [("response_message", JVal.jstr extUnsureText), ("goto", JVal.jstr "settings")] :=
  ⟨(C2_output_shapes.1 none).1, C2_output_shapes.2.1 (some " hi "),
    C2_output_shapes.2.2.2 "\x7b\"goto\": \"settings\"\x7d" [("goto", JVal.jstr "settings")]
      none rfl (by decide)⟩

/-! ## Claim C7: idempotence of the normalizer -/

/-- C7: the response normalizer is idempotent through serialization: for
every input string, re-serializing the normalized map with `json.dumps`
and normalizing again reproduces the same map. The fallback outputs are
fixed points by direct computation; a successfully normalized object
round-trips because its serialization survives the fence cleanup, parses
back to the same well-formed dict, and every emitted field passes its own
emission test again. -/
theorem C7_normalizer_idempotent (x : String) :
    parse_llm_response (json_dumps (JVal.jobj (parse_llm_response x))) =
      parse_llm_response x := by
  rcases hj : json_loads_chars (cleanReply x.data) with _ | v
  · have he : parse_llm_response x = parseErrorFallback := by
      unfold parse_llm_response
      rw [hj]
    rw [he]
    rfl
  · rcases hn : normalizeDecoded v with _ | m
    · have he : parse_llm_response x = unexpectedErrorFallback := by
        unfold parse_llm_response
        rw [hj]
        dsimp only
        rw [hn]
        rfl
      rw [he]
      rfl
    · have hwf : wfJ v = true := json_loads_wf hj
      have he : parse_llm_response x = m := by
        unfold parse_llm_response
        rw [hj]
        dsimp only
        rw [hn]
        rfl
      rcases v with _ | b | n | st | arr | d
      · rw [show normalizeDecoded JVal.jnull = none from rfl] at hn
        exact absurd hn (by simp)
      · rw [show normalizeDecoded (JVal.jbool b) = none from rfl] at hn
        exact absurd hn (by simp)
      · rw [show normalizeDecoded (JVal.jnum n) = none from rfl] at hn
        exact absurd hn (by simp)
      · rw [show normalizeDecoded (JVal.jstr st) = none from rfl] at hn
        exact absurd hn (by simp)
      · rw [show normalizeDecoded (JVal.jarr arr) = none from rfl] at hn
        exact absurd hn (by simp)
      · obtain ⟨fopt, hF, hm⟩ := normalizeDecoded_shape d m hwf hn
        have hwfo : wfObj d = true := wfObj_of_wfJ_obj hwf
        rw [he, hm]
        exact parse_llm_renorm fopt _ _ _ _ _ _ hF
          (truthyOptField_spec d "view_mode" hwfo) (truthyOptField_spec d "sort_by" hwfo)
          (truthyOptField_spec d "group_by" hwfo) (closeTabsOpt_spec d)
          (respMsgVal_wf d hwfo) (truthyOptField_spec d "generalResponse" hwfo)

/-- Witness for C7 at a concrete structured reply. -/
theorem C7_normalizer_idempotent_witness :
    parse_llm_response (json_dumps (JVal.jobj (parse_llm_response
      "\x7b\"view_mode\": \"grid\", \"response_message\": \"Done.\"\x7d"))) =
      parse_llm_response "\x7b\"view_mode\": \"grid\", \"response_message\": \"Done.\"\x7d" :=
  C7_normalizer_idempotent "\x7b\"view_mode\": \"grid\", \"response_message\": \"Done.\"\x7d"

end GLChat
